import Mathlib

/-! Receptor preparation and rotation algebra.

A shallow embedding of `src/utility.hpp` (quaternion / rotation-matrix
helpers) and of the constructor `receptor::receptor` in `src/receptor.cpp`
(line-by-line parser with residue-scoped reclassification, followed by the
construction of the spatial partition grid).

Conventions.

* Arithmetic of `utility.hpp` is embedded over an arbitrary commutative ring
  `R` (exact arithmetic); the definitions are computable, e.g. over `ℤ` or `ℚ`.
* `std::string` values are `List Char`; `std::vector<T>` values are `List T`.
* Code that throws (`substr` past the end, `stoul`, `stof`) returns `none`.
* The headers `atom.hpp`, `box.hpp`, `scoring_function.hpp`, `array3d.hpp`
  lie outside the two embedded files; what the constructor uses of them is
  taken as a parameter (`Deps`, `Box`, `Cutoff_Sqr`). The type `F` of
  coordinates and distances is any linear order (exact arithmetic).
-/

set_option linter.dupNamespace false

namespace Idock

/-! ## utility.hpp : value types -/

/-- A quaternion `qtn4(q0, q1, q2, q3)`; `q0` is the scalar part (`q[0]`). -/
structure qtn4 (R : Type) where
  q0 : R
  q1 : R
  q2 : R
  q3 : R
deriving DecidableEq, Repr

/-- A three-component vector `vec3(v0, v1, v2)`. -/
structure vec3 (R : Type) where
  v0 : R
  v1 : R
  v2 : R
deriving DecidableEq, Repr

/-- A row-major 3x3 matrix, the `array<float, 9>` of the source. -/
structure mat3 (R : Type) where
  m0 : R
  m1 : R
  m2 : R
  m3 : R
  m4 : R
  m5 : R
  m6 : R
  m7 : R
  m8 : R
deriving DecidableEq, Repr

section Utility

variable {R : Type} [CommRing R]

/-- Embedding of `norm_sqr` (utility.hpp, lines 22-26). -/
def norm_sqr (q : qtn4 R) : R :=
  q.q0 * q.q0 + q.q1 * q.q1 + q.q2 * q.q2 + q.q3 * q.q3

/-- Embedding of `qtn4_mul_qtn4` (utility.hpp, lines 76-86). -/
def qtn4_mul_qtn4 (q1 q2 : qtn4 R) : qtn4 R :=
  { q0 := q1.q0 * q2.q0 - q1.q1 * q2.q1 - q1.q2 * q2.q2 - q1.q3 * q2.q3
    q1 := q1.q0 * q2.q1 + q1.q1 * q2.q0 + q1.q2 * q2.q3 - q1.q3 * q2.q2
    q2 := q1.q0 * q2.q2 - q1.q1 * q2.q3 + q1.q2 * q2.q0 + q1.q3 * q2.q1
    q3 := q1.q0 * q2.q3 + q1.q1 * q2.q2 - q1.q2 * q2.q1 + q1.q3 * q2.q0 }

/-- Embedding of `qtn4_to_mat3` (utility.hpp, lines 88-111). -/
def qtn4_to_mat3 (q : qtn4 R) : mat3 R :=
  let aa := q.q0 * q.q0
  let ab := q.q0 * q.q1
  let ac := q.q0 * q.q2
  let ad := q.q0 * q.q3
  let bb := q.q1 * q.q1
  let bc := q.q1 * q.q2
  let bd := q.q1 * q.q3
  let cc := q.q2 * q.q2
  let cd := q.q2 * q.q3
  let dd := q.q3 * q.q3
  { m0 := aa + bb - cc - dd, m1 := 2 * (-ad + bc), m2 := 2 * (ac + bd)
    m3 := 2 * (ad + bc), m4 := aa - bb + cc - dd, m5 := 2 * (-ab + cd)
    m6 := 2 * (-ac + bd), m7 := 2 * (ab + cd), m8 := aa - bb - cc + dd }

/-- Embedding of `mat3_mul_vec3` (utility.hpp, lines 113-122; the overload on
`array<float, 3>` at lines 124-133 has the same body). -/
def mat3_mul_vec3 (m : mat3 R) (v : vec3 R) : vec3 R :=
  { v0 := m.m0 * v.v0 + m.m1 * v.v1 + m.m2 * v.v2
    v1 := m.m3 * v.v0 + m.m4 * v.v1 + m.m5 * v.v2
    v2 := m.m6 * v.v0 + m.m7 * v.v1 + m.m8 * v.v2 }

/-- The reference reading of a `qtn4` as a Hamilton quaternion
`q0 + q1 i + q2 j + q3 k` of Mathlib (`i^2 = j^2 = k^2 = ijk = -1`). -/
def toQuaternion (q : qtn4 R) : Quaternion R :=
  ⟨q.q0, q.q1, q.q2, q.q3⟩

/-- The matrix of Mathlib with the same rows as a row-major `mat3`. -/
def mat3.toMatrix (m : mat3 R) : Matrix (Fin 3) (Fin 3) R :=
  Matrix.of ![![m.m0, m.m1, m.m2], ![m.m3, m.m4, m.m5], ![m.m6, m.m7, m.m8]]

end Utility

/-! ## utility.hpp : triangular indices -/

/-- Embedding of `mr` (utility.hpp, lines 10-14) on a `size_t` of `w` bits:
`(j*(j+1)>>1) + i`, every operation reduced modulo `2 ^ w`. The arguments
are `size_t` values, below `2 ^ w`. -/
def mr (w i j : Nat) : Nat :=
  ((((j * ((j + 1) % 2 ^ w)) % 2 ^ w) >>> 1) + i) % 2 ^ w

/-- Embedding of `mp` (utility.hpp, lines 16-20). -/
def mp (w i j : Nat) : Nat :=
  if i ≤ j then mr w i j else mr w j i

/-! ## utility.hpp : norms and conversions -/

/-- What utility.hpp uses of the mathematical library (`sqrt`, `sin`, `cos`)
and of `vec3.hpp` (the test `zero()` of a vector). -/
structure Lib (R : Type) where
  sqrt : R → R
  sin : R → R
  cos : R → R
  zero : vec3 R → Bool

section UtilityField

variable {R : Type} [LinearOrderedField R]

/-- Modelled from the spec: `vec3::norm()` of `vec3.hpp`, "the vector's norm",
the square root of the sum of the squared components. -/
def vec3_norm (L : Lib R) (v : vec3 R) : R :=
  L.sqrt (v.v0 * v.v0 + v.v1 * v.v1 + v.v2 * v.v2)

/-- Modelled from the spec: the product `s * v` of a scalar and a vector of
`vec3.hpp`, component by component. -/
def vec3_scale (s : R) (v : vec3 R) : vec3 R :=
  { v0 := s * v.v0, v1 := s * v.v1, v2 := s * v.v2 }

/-- Embedding of `norm` (utility.hpp, lines 28-32). -/
def norm (L : Lib R) (q : qtn4 R) : R :=
  L.sqrt (norm_sqr q)

/-- Embedding of `is_normalized` (utility.hpp, lines 34-38); `1e-5f` is read
as `1 / 100000`. -/
def is_normalized (q : qtn4 R) : Bool :=
  decide (norm_sqr q - 1 < 1 / 100000)

/-- Embedding of `normalize` (utility.hpp, lines 40-45). -/
def normalize (L : Lib R) (q : qtn4 R) : qtn4 R :=
  let norm_inv := 1 / norm L q
  { q0 := q.q0 * norm_inv, q1 := q.q1 * norm_inv, q2 := q.q2 * norm_inv,
    q3 := q.q3 * norm_inv }

/-- Embedding of `vec4_to_qtn4` (utility.hpp, lines 47-59); `0.5f` is read as
`1 / 2`. -/
def vec4_to_qtn4 (L : Lib R) (axis : vec3 R) (angle : R) : qtn4 R :=
  let s := L.sin (angle * (1 / 2))
  { q0 := L.cos (angle * (1 / 2)), q1 := s * axis.v0, q2 := s * axis.v1, q3 := s * axis.v2 }

/-- Embedding of `vec3_to_qtn4` (utility.hpp, lines 61-74). -/
def vec3_to_qtn4 (L : Lib R) (rotation : vec3 R) : qtn4 R :=
  if L.zero rotation then { q0 := 1, q1 := 0, q2 := 0, q3 := 0 }
  else
    let angle := vec3_norm L rotation
    let axis := vec3_scale (1 / angle) rotation
    vec4_to_qtn4 L axis angle

end UtilityField

/-- A library over the rationals for evaluation: exact zero test, and
stand-ins for `sqrt`, `sin`, `cos` (identity, constant 0, constant 1). -/
def demoLib : Lib ℚ where
  sqrt := fun x => x
  sin := fun _ => 0
  cos := fun _ => 1
  zero := fun v => decide (v.v0 = 0) && decide (v.v1 = 0) && decide (v.v2 = 0)

/-! ## receptor.cpp : collaborators taken as parameters -/

/-- What `receptor::receptor` uses of `atom.hpp` (the class `atom`, the
AutoDock type constants and `parse_ad_type_string`) and of the numeric parsers
`std::stoul`, `std::stof` of the standard library (`none` when they throw).
`F` stands for the type `float` of coordinates and distances. -/
structure Deps (Atom F : Type) where
  AD_TYPE_H : Nat
  AD_TYPE_HD : Nat
  AD_TYPE_SIZE : Nat
  parse_ad_type_string : List Char → Nat
  stoul : List Char → Option Nat
  stof : List Char → Option F
  mk_atom : Nat → List Char → List Char → vec3 F → Nat → Atom
  coordinate : Atom → vec3 F
  is_hetero : Atom → Bool
  is_neighbor : Atom → Atom → Bool
  donorize : Atom → Atom
  dehydrophobicize : Atom → Atom

/-- What `receptor::receptor` uses of `box.hpp`: the partition counts, the
corner query and the two overloads of `project_distance_sqr` (the overload
with two corners is `project_distance_sqr3`). -/
structure Box (F : Type) where
  num_partitions : Nat × Nat × Nat
  partition_corner1 : Nat × Nat × Nat → vec3 F
  project_distance_sqr : vec3 F → F
  project_distance_sqr3 : vec3 F → vec3 F → vec3 F → F

/-! ## receptor.cpp : strings -/

/-- The function `std::isspace` in the C locale: space, tab, line feed,
vertical tab, form feed, carriage return (codes 32 and 9 to 13). -/
def isspace (c : Char) : Bool :=
  c.toNat == 32 || (9 ≤ c.toNat && c.toNat ≤ 13)

/-- The access `line[i]` on a `std::string`. At `i = size()` the language returns the NUL
character; beyond that the read is undefined in C++ and is modelled as NUL
too. -/
def line_at (line : List Char) (i : Nat) : Char :=
  line.getD i (Char.ofNat 0)

/-- The call `s.substr(pos, len)`: throws `std::out_of_range` (here `none`) when
`pos > s.size()`, otherwise the at most `len` characters from `pos`. -/
def substr (s : List Char) (pos len : Nat) : Option (List Char) :=
  if pos ≤ s.length then some ((s.drop pos).take len) else none

/-- The call `boost::algorithm::trim(name)`: drops leading and trailing white
space. -/
def trim (s : List Char) : List Char :=
  ((s.dropWhile isspace).reverse.dropWhile isspace).reverse

/-- The record tag `"ATOM  "`. -/
def record_ATOM : List Char := ['A', 'T', 'O', 'M', ' ', ' ']

/-- The record tag `"HETATM"`. -/
def record_HETATM : List Char := ['H', 'E', 'T', 'A', 'T', 'M']

/-- The record tag `"TER   "`. -/
def record_TER : List Char := ['T', 'E', 'R', ' ', ' ', ' ']

/-- The dummy residue key `"XXXX"` (receptor.cpp, lines 12 and 86). -/
def residue_dummy : List Char := ['X', 'X', 'X', 'X']

/-- Line 20, `record = line.substr(0, 6)`; position 0 never throws. -/
def record_of (line : List Char) : List Char :=
  line.take 6

/-- The test of line 21: the record is `"ATOM  "` or `"HETATM"`. -/
def is_atom_record (line : List Char) : Bool :=
  record_of line == record_ATOM || record_of line == record_HETATM

/-! ## receptor.cpp : the parsing loop -/

/-- The local state of the parsing loop: the atom list built so far, the
tracked residue key `residue` and the index `residue_start`. -/
structure State (Atom : Type) where
  atoms : List Atom
  residue : List Char
  residue_start : Nat
deriving DecidableEq, Repr

/-- The state before the first line. `residue_start` is declared without an
initial value in the source (line 13); `rs0` stands for whatever it holds. -/
def State.initial {Atom : Type} (rs0 : Nat) : State Atom :=
  { atoms := [], residue := residue_dummy, residue_start := rs0 }

/-- The condition of line 24: one of the characters `line[22..25]` differs
from the tracked key. -/
def residue_differs (residue line : List Char) : Bool :=
  line_at line 25 != line_at residue 3 || line_at line 24 != line_at residue 2 ||
    line_at line 23 != line_at residue 1 || line_at line 22 != line_at residue 0

/-- Lines 24-31: residue change detection. -/
def residue_check {Atom : Type} (st : State Atom) (line : List Char) : State Atom :=
  if residue_differs st.residue line then
    { atoms := st.atoms
      residue := (((st.residue.set 3 (line_at line 25)).set 2 (line_at line 24)).set 1
        (line_at line 23)).set 0 (line_at line 22)
      residue_start := st.atoms.length }
  else st

/-- Line 34: `line.substr(77, isspace(line[78]) ? 1 : 2)`. -/
def ad_type_string (line : List Char) : Option (List Char) :=
  substr line 77 (if isspace (line_at line 78) then 1 else 2)

section Parser

variable {Atom F : Type}

/-- Lines 42-44: the candidate atom built from the fixed columns of the line;
`none` when one of `substr`, `stoul`, `stof` throws. -/
def parse_atom (d : Deps Atom F) (line : List Char) (ad : Nat) : Option Atom := do
  let name0 ← substr line 12 4
  let name := trim name0
  let serial ← (substr line 6 5).bind d.stoul
  let chain ← substr line 21 1
  let resname ← substr line 17 3
  let resseq ← substr line 22 4
  let x ← (substr line 30 8).bind d.stof
  let y ← (substr line 38 8).bind d.stof
  let z ← (substr line 46 8).bind d.stof
  pure (d.mk_atom serial name (chain ++ [':'] ++ resname ++ resseq ++ [':'] ++ name)
    { v0 := x, v1 := y, v2 := z } ad)

/-- Lines 49-57: the loop `for (size_t i = atoms.size(); i > residue_start;)`
of the polar-hydrogen branch, entered with loop variable `i`. The first
hetero neighbour of `a` met going down is donorized and the loop is left. -/
def donor_loop (d : Deps Atom F) (a : Atom) (residue_start : Nat) :
    Nat → List Atom → List Atom
  | 0, atoms => atoms
  | i + 1, atoms =>
    if i + 1 > residue_start then
      match atoms[i]? with
      | some b =>
        if d.is_hetero b && d.is_neighbor b a then atoms.set i (d.donorize b)
        else donor_loop d a residue_start i atoms
      | none => donor_loop d a residue_start i atoms
    else atoms

/-- Lines 61-68: the loop of the hetero branch, entered with loop variable
`i`. Every non-hetero neighbour of `a` is dehydrophobicized; there is no
`break`. -/
def hetero_loop (d : Deps Atom F) (a : Atom) (residue_start : Nat) :
    Nat → List Atom → List Atom
  | 0, atoms => atoms
  | i + 1, atoms =>
    if i + 1 > residue_start then
      match atoms[i]? with
      | some b =>
        if !d.is_hetero b && d.is_neighbor b a then
          hetero_loop d a residue_start i (atoms.set i (d.dehydrophobicize b))
        else hetero_loop d a residue_start i atoms
      | none => hetero_loop d a residue_start i atoms
    else atoms

/-- Lines 72-80: the loop of the carbon branch, entered with loop variable
`i`; it returns the new atom `a`, dehydrophobicized at the first hetero
neighbour met going down. The stored atoms are only read. -/
def carbon_loop (d : Deps Atom F) (a : Atom) (residue_start : Nat) (atoms : List Atom) :
    Nat → Atom
  | 0 => a
  | i + 1 =>
    if i + 1 > residue_start then
      match atoms[i]? with
      | some b =>
        if d.is_hetero b && d.is_neighbor b a then d.dehydrophobicize a
        else carbon_loop d a residue_start atoms i
      | none => carbon_loop d a residue_start atoms i
    else a

/-- Lines 46-82: reclassification for the candidate atom `a` of type `ad`,
then `atoms.push_back(a)`. -/
def classify (d : Deps Atom F) (st : State Atom) (a : Atom) (ad : Nat) : State Atom :=
  if ad = d.AD_TYPE_HD then
    { st with atoms := donor_loop d a st.residue_start st.atoms.length st.atoms ++ [a] }
  else if d.is_hetero a then
    { st with atoms := hetero_loop d a st.residue_start st.atoms.length st.atoms ++ [a] }
  else
    { st with atoms := st.atoms ++ [carbon_loop d a st.residue_start st.atoms st.atoms.length] }

/-- Lines 20-87: the body of the parsing loop for one line. `none` stands for
an exception leaving the constructor. -/
def process_line (d : Deps Atom F) (st : State Atom) (line : List Char) :
    Option (State Atom) :=
  if is_atom_record line then
    let st1 := residue_check st line
    match ad_type_string line with
    | none => none
    | some tok =>
      let ad := d.parse_ad_type_string tok
      if ad = d.AD_TYPE_SIZE then some st1
      else if ad = d.AD_TYPE_H then some st1
      else
        match parse_atom d line ad with
        | none => none
        | some a => some (classify d st1 a ad)
  else if record_of line == record_TER then
    some { st with residue := residue_dummy }
  else some st

/-- Lines 18-88: the parsing loop over the lines delivered by `getline`. -/
def parse_lines (d : Deps Atom F) : State Atom → List (List Char) → Option (State Atom)
  | st, [] => some st
  | st, line :: rest =>
    match process_line d st line with
    | none => none
    | some st1 => parse_lines d st1 rest

end Parser

/-! ## receptor.cpp : the partition grid -/

section Grid

variable {Atom F : Type} [LinearOrder F]

/-- The test of line 97 on the stored atom of index `i`. -/
def within_box (d : Deps Atom F) (b : Box F) (Cutoff_Sqr : F) (atoms : List Atom)
    (i : Nat) : Bool :=
  match atoms[i]? with
  | some a => decide (b.project_distance_sqr (d.coordinate a) < Cutoff_Sqr)
  | none => false

/-- Lines 91-101: the indices `i = 0, ..., atoms.size() - 1`, in this order,
of the atoms whose projected squared distance to the box is below
`Cutoff_Sqr`. -/
def receptor_atoms_within_cutoff (d : Deps Atom F) (b : Box F) (Cutoff_Sqr : F)
    (atoms : List Atom) : List Nat :=
  (List.range atoms.length).filter (within_box d b Cutoff_Sqr atoms)

/-- Lines 119-120 on the stored atom of index `i`, for the cell with corners
`corner1`, `corner2`. -/
def within_cell (d : Deps Atom F) (b : Box F) (Cutoff_Sqr : F) (atoms : List Atom)
    (corner1 corner2 : vec3 F) (i : Nat) : Bool :=
  match atoms[i]? with
  | some a => decide (b.project_distance_sqr3 corner1 corner2 (d.coordinate a) < Cutoff_Sqr)
  | none => false

/-- Lines 109-124: the bucket of the cell `(x, y, z)`, filled from the
pre-filtered indices `within` in their order. -/
def fill_partition (d : Deps Atom F) (b : Box F) (Cutoff_Sqr : F) (atoms : List Atom)
    (within : List Nat) (x y z : Nat) : List Nat :=
  let corner1 := b.partition_corner1 (x, y, z)
  let corner2 := b.partition_corner1 (x + 1, y + 1, z + 1)
  within.filter (within_cell d b Cutoff_Sqr atoms corner1 corner2)

/-- Lines 90-125: the three-dimensional array of buckets, of dimensions
`b.num_partitions`. -/
def build_partitions (d : Deps Atom F) (b : Box F) (Cutoff_Sqr : F) (atoms : List Atom) :
    List (List (List (List Nat))) :=
  let within := receptor_atoms_within_cutoff d b Cutoff_Sqr atoms
  (List.range b.num_partitions.1).map fun x =>
    (List.range b.num_partitions.2.1).map fun y =>
      (List.range b.num_partitions.2.2).map fun z =>
        fill_partition d b Cutoff_Sqr atoms within x y z

/-- Modelled from the spec: the grid is "overlaid on the search box"
(`box.hpp`), so the region of every cell of the grid lies inside the box and
a point is at least as far from the region of a cell as from the box. -/
def cells_within (b : Box F) : Prop :=
  ∀ x y z, x < b.num_partitions.1 → y < b.num_partitions.2.1 → z < b.num_partitions.2.2 →
    ∀ p, b.project_distance_sqr p ≤
      b.project_distance_sqr3 (b.partition_corner1 (x, y, z))
        (b.partition_corner1 (x + 1, y + 1, z + 1)) p

/-- The constructed object: the atom list and the array of buckets. -/
structure receptor (Atom : Type) where
  atoms : List Atom
  partitions : List (List (List (List Nat)))
deriving DecidableEq, Repr

/-- The element access `partitions(x, y, z)`. -/
def receptor.partition (r : receptor Atom) (x y z : Nat) : List Nat :=
  ((r.partitions.getD x []).getD y []).getD z []

/-- The constructor `receptor::receptor` on the lines of the file: the
parsing loop from the initial state, then the grid. `none` when an exception
leaves the constructor. -/
def receptor.receptor (d : Deps Atom F) (b : Box F) (Cutoff_Sqr : F) (rs0 : Nat)
    (lines : List (List Char)) : Option (receptor Atom) :=
  match parse_lines d (State.initial rs0) lines with
  | none => none
  | some st =>
    some { atoms := st.atoms, partitions := build_partitions d b Cutoff_Sqr st.atoms }

end Grid

/-! ## Reading of the scan targets -/

section Targets

variable {Atom F : Type}

/-- The index `j` is the largest one in `[residue_start, n)` whose stored atom
is hetero and a neighbour of the new atom `a`. -/
def donor_target (d : Deps Atom F) (a : Atom) (residue_start : Nat) (atoms : List Atom)
    (n j : Nat) : Prop :=
  residue_start ≤ j ∧ j < n ∧
    (∃ b, atoms[j]? = some b ∧ d.is_hetero b = true ∧ d.is_neighbor b a = true) ∧
    ∀ k c, j < k → k < n → atoms[k]? = some c →
      ¬ (d.is_hetero c = true ∧ d.is_neighbor c a = true)

/-- Some index of `[residue_start, n)` holds a stored atom that is hetero and
a neighbour of the new atom `a`. -/
def has_hetero_neighbor (d : Deps Atom F) (a : Atom) (residue_start : Nat)
    (atoms : List Atom) (n : Nat) : Prop :=
  ∃ k c, residue_start ≤ k ∧ k < n ∧ atoms[k]? = some c ∧
    d.is_hetero c = true ∧ d.is_neighbor c a = true

end Targets

/-! ## A concrete instance of the collaborators, for evaluation -/

/-- A small atom record: serial, name, key, integer coordinate, AutoDock type
`ad` and the flags `donor`, `hydrophobic` that reclassification changes. -/
structure DemoAtom where
  serial : Nat
  name : List Char
  key : List Char
  coordinate : vec3 Int
  ad : Nat
  donor : Bool
  hydrophobic : Bool
deriving DecidableEq, Repr

/-- Reads an unsigned decimal number after optional white space; `none` when
no digit is found. -/
def demo_stoul (s : List Char) : Option Nat :=
  let t := (s.dropWhile isspace).takeWhile Char.isDigit
  if t = [] then none else some (t.foldl (fun n c => 10 * n + (c.toNat - 48)) 0)

/-- Reads a signed whole number (the part before the decimal point). -/
def demo_stof (s : List Char) : Option Int :=
  match s.dropWhile isspace with
  | '-' :: t => (demo_stoul t).map fun n => - (n : Int)
  | t => (demo_stoul t).map fun n => (n : Int)

/-- Squared distance of two integer points. -/
def demo_distance_sqr (p q : vec3 Int) : Int :=
  (p.v0 - q.v0) * (p.v0 - q.v0) + (p.v1 - q.v1) * (p.v1 - q.v1) + (p.v2 - q.v2) * (p.v2 - q.v2)

/-- Type table of the instance: `H` 0, `HD` 1, `C` 2, `N` 3, `OA` 4, and 5 for
every other token. Types 3 and 4 are hetero; two atoms are neighbours when
their squared distance is below 4. -/
def demoDeps : Deps DemoAtom Int where
  AD_TYPE_H := 0
  AD_TYPE_HD := 1
  AD_TYPE_SIZE := 5
  parse_ad_type_string := fun s =>
    if s = ['H'] then 0 else if s = ['H', 'D'] then 1 else if s = ['C'] then 2
    else if s = ['N'] then 3 else if s = ['O', 'A'] then 4 else 5
  stoul := demo_stoul
  stof := demo_stof
  mk_atom := fun serial name key c ad =>
    { serial := serial, name := name, key := key, coordinate := c, ad := ad,
      donor := false, hydrophobic := decide (ad = 2) }
  coordinate := fun a => a.coordinate
  is_hetero := fun a => decide (3 ≤ a.ad)
  is_neighbor := fun a b => decide (demo_distance_sqr a.coordinate b.coordinate < 4)
  donorize := fun a => { a with donor := true }
  dehydrophobicize := fun a => { a with hydrophobic := false }

/-- Right-pads (or cuts) a field to `n` characters. -/
def demo_pad (n : Nat) (s : List Char) : List Char :=
  (s ++ List.replicate n ' ').take n

/-- A 79-character atom line: tag `ATOM`, serial `1`, atom name `name`,
residue `ALA`, chain `A`, residue sequence `resseq`, coordinates `x y z` and
type token `tok` at columns 78-79. -/
def demo_line (name resseq x y z tok : List Char) : List Char :=
  record_ATOM ++ demo_pad 5 ['1'] ++ [' '] ++ demo_pad 4 name ++ [' '] ++
    ['A', 'L', 'A'] ++ [' ', 'A'] ++ demo_pad 4 resseq ++ demo_pad 4 [] ++
    demo_pad 8 x ++ demo_pad 8 y ++ demo_pad 8 z ++ demo_pad 23 [] ++ demo_pad 2 tok

/-- A nitrogen at the origin, residue sequence `1`. -/
def demo_line_N : List Char := demo_line ['N'] ['1'] ['0'] ['0'] ['0'] ['N']

/-- A polar hydrogen at `(1, 0, 0)`, residue sequence `1`. -/
def demo_line_HD : List Char := demo_line ['H'] ['1'] ['1'] ['0'] ['0'] ['H', 'D']

/-- A carbon at `(0, 1, 0)`, residue sequence `1`. -/
def demo_line_C : List Char := demo_line ['C', 'A'] ['1'] ['0'] ['1'] ['0'] ['C']

/-- A non-polar hydrogen at `(0, 0, 1)`, residue sequence `2`. -/
def demo_line_H : List Char := demo_line ['H', 'A'] ['2'] ['0'] ['0'] ['1'] ['H']

/-- A nitrogen at `(1, 1, 0)`, residue sequence `2`. -/
def demo_line_N2 : List Char := demo_line ['N'] ['2'] ['1'] ['1'] ['0'] ['N']

/-- The stored nitrogen of `demo_line_N`. -/
def demo_atom_N : DemoAtom :=
  { serial := 1, name := ['N'], key := ['A', ':', 'A', 'L', 'A', '1', ' ', ' ', ' ', ':', 'N'],
    coordinate := { v0 := 0, v1 := 0, v2 := 0 }, ad := 3, donor := false, hydrophobic := false }

/-- The candidate atom of `demo_line_HD`. -/
def demo_atom_HD : DemoAtom :=
  { serial := 1, name := ['H'], key := ['A', ':', 'A', 'L', 'A', '1', ' ', ' ', ' ', ':', 'H'],
    coordinate := { v0 := 1, v1 := 0, v2 := 0 }, ad := 1, donor := false, hydrophobic := false }

/-- The candidate atom of `demo_line_C`. -/
def demo_atom_C : DemoAtom :=
  { serial := 1, name := ['C', 'A'],
    key := ['A', ':', 'A', 'L', 'A', '1', ' ', ' ', ' ', ':', 'C', 'A'],
    coordinate := { v0 := 0, v1 := 1, v2 := 0 }, ad := 2, donor := false, hydrophobic := true }

/-- A carbon at `(1, 0, 0)`. -/
def demo_atom_C2 : DemoAtom :=
  { demo_atom_C with coordinate := { v0 := 1, v1 := 0, v2 := 0 } }

/-- The candidate atom of `demo_line_N2`. -/
def demo_atom_N2 : DemoAtom :=
  { serial := 1, name := ['N'], key := ['A', ':', 'A', 'L', 'A', '2', ' ', ' ', ' ', ':', 'N'],
    coordinate := { v0 := 1, v1 := 1, v2 := 0 }, ad := 3, donor := false, hydrophobic := false }

/-- The state after `demo_line_N` alone: one nitrogen, residue key `"1   "`. -/
def demo_state_N : State DemoAtom :=
  { atoms := [demo_atom_N], residue := ['1', ' ', ' ', ' '], residue_start := 0 }

/-- A state with two carbons of residue `1`, both within bond distance of
the origin. -/
def demo_state_CC : State DemoAtom :=
  { atoms := [demo_atom_C, demo_atom_C2], residue := ['1', ' ', ' ', ' '], residue_start := 0 }

/-- Projection of `v` onto the interval `[lo, hi]`, component-wise step of
the box projection. -/
def demo_clamp (lo hi v : Int) : Int :=
  if v < lo then lo else if v > hi then hi else v

/-- Squared distance from `p` to its projection onto the region with corners
`c1`, `c2`. -/
def demo_project_distance_sqr (c1 c2 p : vec3 Int) : Int :=
  demo_distance_sqr
    { v0 := demo_clamp c1.v0 c2.v0 p.v0, v1 := demo_clamp c1.v1 c2.v1 p.v1,
      v2 := demo_clamp c1.v2 c2.v2 p.v2 } p

/-- A box with corners `(0, 0, 0)` and `(10, 10, 10)` and `3 x 3 x 3`
partitions of size 4 (the size `10 / 3` rounded up): the last cell of each
axis spans `[8, 12]` and reaches beyond the box. -/
def demo_box : Box Int where
  num_partitions := (3, 3, 3)
  partition_corner1 := fun idx =>
    { v0 := 4 * (idx.1 : Int), v1 := 4 * (idx.2.1 : Int), v2 := 4 * (idx.2.2 : Int) }
  project_distance_sqr :=
    demo_project_distance_sqr { v0 := 0, v1 := 0, v2 := 0 } { v0 := 10, v1 := 10, v2 := 10 }
  project_distance_sqr3 := demo_project_distance_sqr

/-- A box with corners `(0, 0, 0)` and `(12, 12, 12)` and `3 x 3 x 3`
partitions of size 4, which tile it exactly. -/
def demo_box_tiled : Box Int where
  num_partitions := (3, 3, 3)
  partition_corner1 := fun idx =>
    { v0 := 4 * (idx.1 : Int), v1 := 4 * (idx.2.1 : Int), v2 := 4 * (idx.2.2 : Int) }
  project_distance_sqr :=
    demo_project_distance_sqr { v0 := 0, v1 := 0, v2 := 0 } { v0 := 12, v1 := 12, v2 := 12 }
  project_distance_sqr3 := demo_project_distance_sqr

/-- A nitrogen at `(19, 0, 0)`, residue sequence `1`. -/
def demo_line_far : List Char := demo_line ['N'] ['1'] ['1', '9'] ['0'] ['0'] ['N']

/-- The stored atom of `demo_line_far`. -/
def demo_atom_far : DemoAtom :=
  { demo_atom_N with coordinate := { v0 := 19, v1 := 0, v2 := 0 } }

/-- A nitrogen at `(18, 0, 0)`, at distance exactly 8 from the box of
`demo_box`. -/
def demo_line_edge : List Char := demo_line ['N'] ['1'] ['1', '8'] ['0'] ['0'] ['N']

/-- The stored atom of `demo_line_edge`. -/
def demo_atom_edge : DemoAtom :=
  { demo_atom_N with coordinate := { v0 := 18, v1 := 0, v2 := 0 } }

/-! ## Well-formed atom lines -/

/-- A terminator line `TER`. -/
def demo_line_TER : List Char := ['T', 'E', 'R', ' ', ' ', ' ']

/-- A polar hydrogen at `(1, 0, 0)` whose columns 23-26 read `XXXX`. -/
def demo_line_HDX : List Char :=
  demo_line ['H'] ['X', 'X', 'X', 'X'] ['1'] ['0'] ['0'] ['H', 'D']

/-- The line `demo_line_HD` with chain id `B` at column 22. -/
def demo_line_HD_chainB : List Char := demo_line_HD.set 21 'B'

section UtilityTheorems

variable {R : Type} [CommRing R]

/-- C1: rotating a vector by the matrix of the product `qtn4_mul_qtn4 q1 q2`
is rotating it by the matrix of `q2` first and by the matrix of `q1` next, for
all quaternions (no unit-norm assumption) in exact arithmetic. -/
theorem mat3_of_qtn4_mul_qtn4 (q1 q2 : qtn4 R) (v : vec3 R) :
    mat3_mul_vec3 (qtn4_to_mat3 (qtn4_mul_qtn4 q1 q2)) v =
      mat3_mul_vec3 (qtn4_to_mat3 q1) (mat3_mul_vec3 (qtn4_to_mat3 q2) v) := by
  simp only [mat3_mul_vec3, qtn4_to_mat3, qtn4_mul_qtn4, vec3.mk.injEq]
  refine ⟨?_, ?_, ?_⟩ <;> ring

/-- C2: `qtn4_mul_qtn4` is the Hamilton product: read as Mathlib quaternions
with `q0` the scalar part, the result is the product of the two arguments. -/
theorem qtn4_mul_qtn4_eq_hamilton (q1 q2 : qtn4 R) :
    toQuaternion (qtn4_mul_qtn4 q1 q2) = toQuaternion q1 * toQuaternion q2 := by
  ext <;> simp [toQuaternion, qtn4_mul_qtn4, Quaternion.mul_re, Quaternion.mul_imI,
    Quaternion.mul_imJ, Quaternion.mul_imK]

end UtilityTheorems

/-! ## Theorems : the three scans -/

section LoopLemmas

variable {Atom F : Type}

theorem donor_loop_length (d : Deps Atom F) (a : Atom) (rs : Nat) (atoms : List Atom) :
    ∀ i, (donor_loop d a rs i atoms).length = atoms.length := by
  intro i
  induction i with
  | zero => simp [donor_loop]
  | succ i ih =>
    unfold donor_loop
    split
    · split
      · split
        · simp
        · exact ih
      · exact ih
    · rfl

theorem hetero_loop_length (d : Deps Atom F) (a : Atom) (rs : Nat) :
    ∀ i (atoms : List Atom), (hetero_loop d a rs i atoms).length = atoms.length := by
  intro i
  induction i with
  | zero => intro atoms; simp [hetero_loop]
  | succ i ih =>
    intro atoms
    unfold hetero_loop
    split
    · split
      · split
        · rw [ih]; simp
        · exact ih atoms
      · exact ih atoms
    · rfl

theorem donor_loop_spec (d : Deps Atom F) (a : Atom) (rs : Nat) (atoms : List Atom) :
    ∀ i j b, atoms[j]? = some b →
      (donor_target d a rs atoms i j →
        (donor_loop d a rs i atoms)[j]? = some (d.donorize b)) ∧
      (¬ donor_target d a rs atoms i j → (donor_loop d a rs i atoms)[j]? = some b) := by
  intro i
  induction i with
  | zero =>
    intro j b hb
    refine ⟨fun h => absurd h.2.1 (Nat.not_lt_zero j), fun _ => ?_⟩
    simpa [donor_loop] using hb
  | succ i ih =>
    intro j b hb
    unfold donor_loop
    by_cases hrs : i + 1 > rs
    · rw [if_pos hrs]
      cases hc : atoms[i]? with
      | none =>
        simp only
        have hji : j ≠ i := by
          rintro rfl
          rw [hb] at hc
          cases hc
        have hiff : donor_target d a rs atoms (i + 1) j ↔ donor_target d a rs atoms i j := by
          constructor
          · rintro ⟨h1, h2, h3, h4⟩
            exact ⟨h1, by omega, h3, fun k c hk hki => h4 k c hk (by omega)⟩
          · rintro ⟨h1, h2, h3, h4⟩
            refine ⟨h1, by omega, h3, fun k c hk hki hkc => ?_⟩
            by_cases hke : k = i
            · subst hke
              rw [hc] at hkc
              cases hkc
            · exact h4 k c hk (by omega) hkc
        rw [hiff]
        exact ih j b hb
      | some c =>
        simp only
        by_cases hP : (d.is_hetero c && d.is_neighbor c a) = true
        · rw [if_pos hP]
          have hP2 : d.is_hetero c = true ∧ d.is_neighbor c a = true := by
            simpa using hP
          by_cases hji : j = i
          · subst hji
            rw [hb] at hc
            cases hc
            have hlt : j < atoms.length := by
              rcases List.getElem?_eq_some_iff.1 hb with ⟨h, _⟩
              exact h
            refine ⟨fun _ => List.getElem?_set_self hlt, fun hn => absurd ?_ hn⟩
            exact ⟨by omega, by omega, ⟨b, hb, hP2.1, hP2.2⟩,
              fun k c hk hki => by omega⟩
          · refine ⟨fun ht => ?_, fun _ => ?_⟩
            · rcases ht with ⟨_, h2, _, h4⟩
              exact absurd hP2 (h4 i c (by omega) (by omega) hc)
            · rw [List.getElem?_set_ne (Ne.symm hji)]
              exact hb
        · rw [if_neg hP]
          have hP2 : ¬ (d.is_hetero c = true ∧ d.is_neighbor c a = true) := by
            simpa using hP
          have hiff : donor_target d a rs atoms (i + 1) j ↔ donor_target d a rs atoms i j := by
            constructor
            · rintro ⟨h1, h2, ⟨b1, hb1, hb2⟩, h4⟩
              have hji : j ≠ i := by
                rintro rfl
                rw [hb1] at hc
                cases hc
                exact hP2 hb2
              exact ⟨h1, by omega, ⟨b1, hb1, hb2⟩, fun k c hk hki => h4 k c hk (by omega)⟩
            · rintro ⟨h1, h2, h3, h4⟩
              refine ⟨h1, by omega, h3, fun k c1 hk hki hkc => ?_⟩
              by_cases hke : k = i
              · subst hke
                rw [hc] at hkc
                cases hkc
                exact hP2
              · exact h4 k c1 hk (by omega) hkc
          rw [hiff]
          exact ih j b hb
    · rw [if_neg hrs]
      refine ⟨fun h => ?_, fun _ => hb⟩
      rcases h with ⟨h1, h2, _, _⟩
      omega

theorem hetero_loop_spec (d : Deps Atom F) (a : Atom) (rs : Nat) :
    ∀ i (atoms : List Atom) j b, atoms[j]? = some b →
      (hetero_loop d a rs i atoms)[j]? =
        some (if rs ≤ j ∧ j < i ∧ (!d.is_hetero b && d.is_neighbor b a) = true
          then d.dehydrophobicize b else b) := by
  intro i
  induction i with
  | zero =>
    intro atoms j b hb
    simpa [hetero_loop] using hb
  | succ i ih =>
    intro atoms j b hb
    unfold hetero_loop
    by_cases hrs : i + 1 > rs
    · rw [if_pos hrs]
      cases hc : atoms[i]? with
      | none =>
        simp only
        have hji : j ≠ i := by
          rintro rfl
          rw [hb] at hc
          cases hc
        rw [ih atoms j b hb]
        have hlt : j < i + 1 ↔ j < i := by omega
        simp only [hlt]
      | some c =>
        simp only
        by_cases hQ : (!d.is_hetero c && d.is_neighbor c a) = true
        · rw [if_pos hQ]
          by_cases hji : j = i
          · subst hji
            rw [hb] at hc
            cases hc
            have hlt : j < atoms.length := by
              rcases List.getElem?_eq_some_iff.1 hb with ⟨h, _⟩
              exact h
            rw [ih (atoms.set j (d.dehydrophobicize b)) j (d.dehydrophobicize b)
              (List.getElem?_set_self hlt)]
            have h1 : ¬ (rs ≤ j ∧ j < j ∧
                (!d.is_hetero (d.dehydrophobicize b) &&
                  d.is_neighbor (d.dehydrophobicize b) a) = true) := by
              rintro ⟨_, h, _⟩
              omega
            have h2 : rs ≤ j ∧ j < j + 1 ∧ (!d.is_hetero b && d.is_neighbor b a) = true :=
              ⟨by omega, by omega, hQ⟩
            rw [if_neg h1, if_pos h2]
          · have hb2 : (atoms.set i (d.dehydrophobicize c))[j]? = some b := by
              rw [List.getElem?_set_ne (Ne.symm hji)]
              exact hb
            rw [ih _ j b hb2]
            have hlt : j < i + 1 ↔ j < i := by omega
            simp only [hlt]
        · rw [if_neg hQ]
          rw [ih atoms j b hb]
          by_cases hji : j = i
          · subst hji
            rw [hb] at hc
            cases hc
            have h1 : ¬ (rs ≤ j ∧ j < j ∧ (!d.is_hetero b && d.is_neighbor b a) = true) := by
              rintro ⟨_, h, _⟩
              omega
            have h2 : ¬ (rs ≤ j ∧ j < j + 1 ∧
                (!d.is_hetero b && d.is_neighbor b a) = true) := by
              rintro ⟨_, _, h⟩
              exact hQ h
            rw [if_neg h1, if_neg h2]
          · have hlt : j < i + 1 ↔ j < i := by omega
            simp only [hlt]
    · rw [if_neg hrs]
      have h1 : ¬ (rs ≤ j ∧ j < i + 1 ∧ (!d.is_hetero b && d.is_neighbor b a) = true) := by
        rintro ⟨_, _, _⟩
        omega
      rw [if_neg h1]
      exact hb

theorem carbon_loop_spec (d : Deps Atom F) (a : Atom) (rs : Nat) (atoms : List Atom) :
    ∀ i, (has_hetero_neighbor d a rs atoms i →
        carbon_loop d a rs atoms i = d.dehydrophobicize a) ∧
      (¬ has_hetero_neighbor d a rs atoms i → carbon_loop d a rs atoms i = a) := by
  intro i
  induction i with
  | zero =>
    refine ⟨fun h => ?_, fun _ => rfl⟩
    rcases h with ⟨k, c, _, hk, _⟩
    omega
  | succ i ih =>
    unfold carbon_loop
    by_cases hrs : i + 1 > rs
    · rw [if_pos hrs]
      cases hc : atoms[i]? with
      | none =>
        simp only
        have hiff : has_hetero_neighbor d a rs atoms (i + 1) ↔
            has_hetero_neighbor d a rs atoms i := by
          constructor
          · rintro ⟨k, c, h1, h2, h3, h4⟩
            have hki : k ≠ i := by
              rintro rfl
              rw [hc] at h3
              cases h3
            exact ⟨k, c, h1, by omega, h3, h4⟩
          · rintro ⟨k, c, h1, h2, h3, h4⟩
            exact ⟨k, c, h1, by omega, h3, h4⟩
        rw [hiff]
        exact ih
      | some c =>
        simp only
        by_cases hP : (d.is_hetero c && d.is_neighbor c a) = true
        · rw [if_pos hP]
          have hP2 : d.is_hetero c = true ∧ d.is_neighbor c a = true := by
            simpa using hP
          refine ⟨fun _ => rfl, fun hn => absurd ?_ hn⟩
          exact ⟨i, c, by omega, by omega, hc, hP2⟩
        · rw [if_neg hP]
          have hP2 : ¬ (d.is_hetero c = true ∧ d.is_neighbor c a = true) := by
            simpa using hP
          have hiff : has_hetero_neighbor d a rs atoms (i + 1) ↔
              has_hetero_neighbor d a rs atoms i := by
            constructor
            · rintro ⟨k, c1, h1, h2, h3, h4⟩
              have hki : k ≠ i := by
                rintro rfl
                rw [hc] at h3
                cases h3
                exact hP2 h4
              exact ⟨k, c1, h1, by omega, h3, h4⟩
            · rintro ⟨k, c1, h1, h2, h3, h4⟩
              exact ⟨k, c1, h1, by omega, h3, h4⟩
          rw [hiff]
          exact ih
    · rw [if_neg hrs]
      refine ⟨fun h => ?_, fun _ => rfl⟩
      rcases h with ⟨k, c, h1, h2, _⟩
      omega

theorem donor_loop_below (d : Deps Atom F) (a : Atom) (rs : Nat) (atoms : List Atom)
    (j : Nat) (hj : j < rs) : ∀ i, (donor_loop d a rs i atoms)[j]? = atoms[j]? := by
  intro i
  induction i with
  | zero => simp [donor_loop]
  | succ i ih =>
    unfold donor_loop
    split
    · split
      · split
        · exact List.getElem?_set_ne (by omega)
        · exact ih
      · exact ih
    · rfl

theorem hetero_loop_below (d : Deps Atom F) (a : Atom) (rs : Nat) (j : Nat) (hj : j < rs) :
    ∀ i (atoms : List Atom), (hetero_loop d a rs i atoms)[j]? = atoms[j]? := by
  intro i
  induction i with
  | zero => intro atoms; simp [hetero_loop]
  | succ i ih =>
    intro atoms
    unfold hetero_loop
    split
    · split
      · split
        · rw [ih]
          exact List.getElem?_set_ne (by omega)
        · exact ih atoms
      · exact ih atoms
    · rfl

theorem donor_target_unique (d : Deps Atom F) (a : Atom) (rs : Nat) (atoms : List Atom)
    (n j k : Nat) (hj : donor_target d a rs atoms n j) (hk : donor_target d a rs atoms n k) :
    j = k := by
  rcases hj with ⟨_, hjn, ⟨b, hb, hPb⟩, hjmax⟩
  rcases hk with ⟨_, hkn, ⟨c, hc, hPc⟩, hkmax⟩
  rcases Nat.lt_trichotomy j k with h | h | h
  · exact absurd hPc (hjmax k c h hkn hc)
  · exact h
  · exact absurd hPb (hkmax j b h hjn hb)

end LoopLemmas

/-! ## Theorems : one line of the parsing loop -/

section LineLemmas

variable {Atom F : Type}

theorem residue_check_atoms (st : State Atom) (line : List Char) :
    (residue_check st line).atoms = st.atoms := by
  unfold residue_check
  split <;> rfl

theorem residue_check_start (st : State Atom) (line : List Char) :
    (residue_check st line).residue_start = st.residue_start ∨
      (residue_check st line).residue_start = st.atoms.length := by
  unfold residue_check
  split
  · exact Or.inr rfl
  · exact Or.inl rfl

theorem classify_residue_start (d : Deps Atom F) (st : State Atom) (a : Atom) (ad : Nat) :
    (classify d st a ad).residue_start = st.residue_start := by
  unfold classify
  split
  · rfl
  · split <;> rfl

theorem classify_residue (d : Deps Atom F) (st : State Atom) (a : Atom) (ad : Nat) :
    (classify d st a ad).residue = st.residue := by
  unfold classify
  split
  · rfl
  · split <;> rfl

theorem classify_length (d : Deps Atom F) (st : State Atom) (a : Atom) (ad : Nat) :
    (classify d st a ad).atoms.length = st.atoms.length + 1 := by
  unfold classify
  split
  · simp [donor_loop_length]
  · split
    · simp [hetero_loop_length]
    · simp

theorem classify_below (d : Deps Atom F) (st : State Atom) (a : Atom) (ad : Nat) (j : Nat)
    (hj : j < st.residue_start) (hn : j < st.atoms.length) :
    (classify d st a ad).atoms[j]? = st.atoms[j]? := by
  unfold classify
  split
  · simp only
    rw [List.getElem?_append_left (by rw [donor_loop_length]; exact hn)]
    exact donor_loop_below d a st.residue_start st.atoms j hj _
  · split
    · simp only
      rw [List.getElem?_append_left (by rw [hetero_loop_length]; exact hn)]
      exact hetero_loop_below d a st.residue_start j hj _ _
    · simp only
      exact List.getElem?_append_left hn

/-- An atom line that is not skipped: its candidate atom is reclassified and
appended in the state left by the residue check. -/
theorem process_line_kept (d : Deps Atom F) (st : State Atom) (line tok : List Char)
    (a : Atom) (hrec : is_atom_record line = true) (htok : ad_type_string line = some tok)
    (hsize : d.parse_ad_type_string tok ≠ d.AD_TYPE_SIZE)
    (hH : d.parse_ad_type_string tok ≠ d.AD_TYPE_H)
    (ha : parse_atom d line (d.parse_ad_type_string tok) = some a) :
    process_line d st line =
      some (classify d (residue_check st line) a (d.parse_ad_type_string tok)) := by
  unfold process_line
  rw [if_pos hrec]
  simp only [htok, if_neg hsize, if_neg hH, ha]

/-- Every line that is processed without an exception either leaves the atom
list as it is, or reclassifies and appends one atom in the state left by the
residue check; the residue start is the old one or the old length. -/
theorem process_line_cases (d : Deps Atom F) (st st1 : State Atom) (line : List Char)
    (h : process_line d st line = some st1) :
    (st1.atoms = st.atoms ∧
      (st1.residue_start = st.residue_start ∨ st1.residue_start = st.atoms.length)) ∨
    ∃ a ad, st1 = classify d (residue_check st line) a ad := by
  unfold process_line at h
  by_cases hrec : is_atom_record line = true
  · rw [if_pos hrec] at h
    cases htok : ad_type_string line with
    | none => simp [htok] at h
    | some tok =>
      simp only [htok] at h
      by_cases hsize : d.parse_ad_type_string tok = d.AD_TYPE_SIZE
      · rw [if_pos hsize] at h
        cases h
        exact Or.inl ⟨residue_check_atoms st line, residue_check_start st line⟩
      · rw [if_neg hsize] at h
        by_cases hH : d.parse_ad_type_string tok = d.AD_TYPE_H
        · rw [if_pos hH] at h
          cases h
          exact Or.inl ⟨residue_check_atoms st line, residue_check_start st line⟩
        · rw [if_neg hH] at h
          cases ha : parse_atom d line (d.parse_ad_type_string tok) with
          | none => simp [ha] at h
          | some a =>
            simp only [ha, Option.some.injEq] at h
            exact Or.inr ⟨a, _, h.symm⟩
  · rw [if_neg hrec] at h
    split at h
    · cases h
      exact Or.inl ⟨rfl, Or.inl rfl⟩
    · cases h
      exact Or.inl ⟨rfl, Or.inl rfl⟩

theorem process_line_below (d : Deps Atom F) (st st1 : State Atom) (line : List Char)
    (h : process_line d st line = some st1) (j : Nat) (hj : j < st1.residue_start)
    (hn : j < st.atoms.length) : st1.atoms[j]? = st.atoms[j]? := by
  rcases process_line_cases d st st1 line h with ⟨hat, _⟩ | ⟨a, ad, rfl⟩
  · rw [hat]
  · rw [classify_residue_start] at hj
    rw [classify_below d _ a ad j hj (by rw [residue_check_atoms]; exact hn),
      residue_check_atoms]

theorem process_line_start (d : Deps Atom F) (st st1 : State Atom) (line : List Char)
    (h : process_line d st line = some st1) :
    (st1.residue_start = st.residue_start ∨ st1.residue_start = st.atoms.length) ∧
      st.atoms.length ≤ st1.atoms.length := by
  rcases process_line_cases d st st1 line h with ⟨hat, hrs⟩ | ⟨a, ad, rfl⟩
  · exact ⟨hrs, by rw [hat]⟩
  · rw [classify_residue_start, classify_length, residue_check_atoms]
    exact ⟨residue_check_start st line, by omega⟩

theorem parse_lines_below (d : Deps Atom F) :
    ∀ (lines : List (List Char)) (st st2 : State Atom), parse_lines d st lines = some st2 →
      ∀ j, j < st.residue_start → j < st.atoms.length → st2.atoms[j]? = st.atoms[j]? := by
  intro lines
  induction lines with
  | nil =>
    intro st st2 h j _ _
    simp only [parse_lines, Option.some.injEq] at h
    rw [h]
  | cons line rest ih =>
    intro st st2 h j hj hn
    unfold parse_lines at h
    cases h1 : process_line d st line with
    | none => simp [h1] at h
    | some st1 =>
      simp only [h1] at h
      have hs := process_line_start d st st1 line h1
      have hj1 : j < st1.residue_start := by
        rcases hs.1 with e | e <;> omega
      rw [ih st1 st2 h j hj1 (by omega)]
      exact process_line_below d st st1 line h1 j hj1 hn

end LineLemmas

/-! ## Theorems : reclassification -/

section Reclassification

variable {Atom F : Type}

/-- C3: when a polar-hydrogen line is processed, the hydrogen is appended and
`donorize` is applied to the stored atom with the largest index in
`[residue_start, atoms.size())` that is hetero and a neighbour of the
hydrogen, and to no other stored atom; at most one index qualifies, and when
none does every stored atom is unchanged. -/
theorem polar_hydrogen_line (d : Deps Atom F) (st : State Atom) (line tok : List Char)
    (a : Atom) (hrec : is_atom_record line = true) (htok : ad_type_string line = some tok)
    (hHD : d.parse_ad_type_string tok = d.AD_TYPE_HD)
    (hsize : d.AD_TYPE_HD ≠ d.AD_TYPE_SIZE) (hH : d.AD_TYPE_HD ≠ d.AD_TYPE_H)
    (ha : parse_atom d line d.AD_TYPE_HD = some a) :
    ∃ st1, process_line d st line = some st1 ∧
      st1.atoms.length = st.atoms.length + 1 ∧
      st1.atoms[st.atoms.length]? = some a ∧
      (∀ j b, st.atoms[j]? = some b →
        (donor_target d a (residue_check st line).residue_start st.atoms st.atoms.length j →
          st1.atoms[j]? = some (d.donorize b)) ∧
        (¬ donor_target d a (residue_check st line).residue_start st.atoms st.atoms.length j →
          st1.atoms[j]? = some b)) ∧
      ∀ j k, donor_target d a (residue_check st line).residue_start st.atoms st.atoms.length j →
        donor_target d a (residue_check st line).residue_start st.atoms st.atoms.length k →
        j = k := by
  have hp := process_line_kept d st line tok a hrec htok (by rw [hHD]; exact hsize)
    (by rw [hHD]; exact hH) (by rw [hHD]; exact ha)
  rw [hHD] at hp
  refine ⟨_, hp, ?_, ?_, ?_, ?_⟩
  · rw [classify_length, residue_check_atoms]
  · simp only [classify, if_true, residue_check_atoms]
    have hl := donor_loop_length d a (residue_check st line).residue_start st.atoms
      st.atoms.length
    rw [List.getElem?_append_right (by rw [hl]), hl]
    simp
  · intro j b hb
    have hlt : j < st.atoms.length := by
      rcases List.getElem?_eq_some_iff.1 hb with ⟨h, _⟩
      exact h
    have hs := donor_loop_spec d a (residue_check st line).residue_start st.atoms
      st.atoms.length j b hb
    simp only [classify, if_true, residue_check_atoms]
    rw [List.getElem?_append_left (by rw [donor_loop_length]; exact hlt)]
    exact hs
  · intro j k hj hk
    exact donor_target_unique d a _ st.atoms _ j k hj hk

/-- C4: when a hetero line that is not a polar hydrogen is processed, the new
atom is appended and `dehydrophobicize` is applied to every stored atom whose
index is at least `residue_start` and that is non-hetero and a neighbour of
the new atom, and to no other stored atom. -/
theorem hetero_line (d : Deps Atom F) (st : State Atom) (line tok : List Char)
    (a : Atom) (hrec : is_atom_record line = true) (htok : ad_type_string line = some tok)
    (hsize : d.parse_ad_type_string tok ≠ d.AD_TYPE_SIZE)
    (hH : d.parse_ad_type_string tok ≠ d.AD_TYPE_H)
    (hHD : d.parse_ad_type_string tok ≠ d.AD_TYPE_HD)
    (ha : parse_atom d line (d.parse_ad_type_string tok) = some a)
    (hhet : d.is_hetero a = true) :
    ∃ st1, process_line d st line = some st1 ∧
      st1.atoms.length = st.atoms.length + 1 ∧
      st1.atoms[st.atoms.length]? = some a ∧
      ∀ j b, st.atoms[j]? = some b →
        st1.atoms[j]? = some
          (if (residue_check st line).residue_start ≤ j ∧
              d.is_hetero b = false ∧ d.is_neighbor b a = true
            then d.dehydrophobicize b else b) := by
  have hp := process_line_kept d st line tok a hrec htok hsize hH ha
  refine ⟨_, hp, ?_, ?_, ?_⟩
  · rw [classify_length, residue_check_atoms]
  · simp only [classify, if_neg hHD, hhet, if_true, residue_check_atoms]
    have hl := hetero_loop_length d a (residue_check st line).residue_start
      st.atoms.length st.atoms
    rw [List.getElem?_append_right (by rw [hl]), hl]
    simp
  · intro j b hb
    have hlt : j < st.atoms.length := by
      rcases List.getElem?_eq_some_iff.1 hb with ⟨h, _⟩
      exact h
    have hs := hetero_loop_spec d a (residue_check st line).residue_start
      st.atoms.length st.atoms j b hb
    simp only [classify, if_neg hHD, hhet, if_true, residue_check_atoms]
    rw [List.getElem?_append_left (by rw [hetero_loop_length]; exact hlt), hs]
    simp [hlt]

/-- C5: when a line that is neither polar hydrogen nor hetero is processed,
the atom list grows by exactly the new atom, which is dehydrophobicized first
if some stored atom with index in `[residue_start, atoms.size())` is hetero
and a neighbour of it, and is appended as parsed otherwise; the stored atoms
are unchanged. -/
theorem carbon_line (d : Deps Atom F) (st : State Atom) (line tok : List Char)
    (a : Atom) (hrec : is_atom_record line = true) (htok : ad_type_string line = some tok)
    (hsize : d.parse_ad_type_string tok ≠ d.AD_TYPE_SIZE)
    (hH : d.parse_ad_type_string tok ≠ d.AD_TYPE_H)
    (hHD : d.parse_ad_type_string tok ≠ d.AD_TYPE_HD)
    (ha : parse_atom d line (d.parse_ad_type_string tok) = some a)
    (hhet : d.is_hetero a = false) :
    ∃ st1, process_line d st line = some st1 ∧
      (has_hetero_neighbor d a (residue_check st line).residue_start st.atoms
          st.atoms.length → st1.atoms = st.atoms ++ [d.dehydrophobicize a]) ∧
      (¬ has_hetero_neighbor d a (residue_check st line).residue_start st.atoms
          st.atoms.length → st1.atoms = st.atoms ++ [a]) := by
  have hp := process_line_kept d st line tok a hrec htok hsize hH ha
  have hs := carbon_loop_spec d a (residue_check st line).residue_start st.atoms
    st.atoms.length
  refine ⟨_, hp, ?_, ?_⟩
  · intro h
    simp [classify, if_neg hHD, hhet, residue_check_atoms, hs.1 h]
  · intro h
    simp [classify, if_neg hHD, hhet, residue_check_atoms, hs.2 h]

/-- C6: a line processed with residue start index `st1.residue_start` in
force (the value after its residue check) leaves every stored atom below
that index as it was, and so do all the lines that follow it. -/
theorem residue_local (d : Deps Atom F) (st st1 st2 : State Atom) (line : List Char)
    (rest : List (List Char)) (h1 : process_line d st line = some st1)
    (h2 : parse_lines d st1 rest = some st2) (j : Nat) (hj : j < st1.residue_start)
    (hn : j < st.atoms.length) :
    st1.atoms[j]? = st.atoms[j]? ∧ st2.atoms[j]? = st.atoms[j]? := by
  have hstep := process_line_below d st st1 line h1 j hj hn
  have hlen := (process_line_start d st st1 line h1).2
  refine ⟨hstep, ?_⟩
  rw [parse_lines_below d rest st1 st2 h2 j hj (by omega)]
  exact hstep

/-- C9: an atom line whose type token is not resolved (`AD_TYPE_SIZE`) or is
the non-polar hydrogen type `AD_TYPE_H` is processed without changing the
atom list. -/
theorem skipped_line (d : Deps Atom F) (st : State Atom) (line tok : List Char)
    (hrec : is_atom_record line = true) (htok : ad_type_string line = some tok)
    (hskip : d.parse_ad_type_string tok = d.AD_TYPE_SIZE ∨
      d.parse_ad_type_string tok = d.AD_TYPE_H) :
    ∃ st1, process_line d st line = some st1 ∧ st1.atoms = st.atoms := by
  refine ⟨residue_check st line, ?_, residue_check_atoms st line⟩
  unfold process_line
  rw [if_pos hrec]
  simp only [htok]
  rcases hskip with h | h
  · rw [if_pos h]
  · rw [h]
    simp

theorem residue_differs_iff (residue line : List Char) :
    residue_differs residue line = true ↔
      ∃ k, k < 4 ∧ line_at line (22 + k) ≠ line_at residue k := by
  unfold residue_differs
  simp only [Bool.or_eq_true, bne_iff_ne, ne_eq]
  constructor
  · rintro (((h | h) | h) | h)
    · exact ⟨3, by omega, h⟩
    · exact ⟨2, by omega, h⟩
    · exact ⟨1, by omega, h⟩
    · exact ⟨0, by omega, h⟩
  · rintro ⟨k, hk, h⟩
    have hcases : k = 0 ∨ k = 1 ∨ k = 2 ∨ k = 3 := by omega
    rcases hcases with rfl | rfl | rfl | rfl
    · exact Or.inr h
    · exact Or.inl (Or.inr h)
    · exact Or.inl (Or.inl (Or.inr h))
    · exact Or.inl (Or.inl (Or.inl h))

theorem residue_set_all (residue : List Char) (c0 c1 c2 c3 : Char)
    (hlen : residue.length = 4) :
    (((residue.set 3 c3).set 2 c2).set 1 c1).set 0 c0 = [c0, c1, c2, c3] := by
  match residue, hlen with
  | [_, _, _, _], _ => rfl

theorem process_line_atom_key (d : Deps Atom F) (st st1 : State Atom) (line : List Char)
    (hrec : is_atom_record line = true) (h : process_line d st line = some st1) :
    st1.residue_start = (residue_check st line).residue_start ∧
      st1.residue = (residue_check st line).residue := by
  unfold process_line at h
  rw [if_pos hrec] at h
  cases htok : ad_type_string line with
  | none => simp [htok] at h
  | some tok =>
    simp only [htok] at h
    by_cases hsize : d.parse_ad_type_string tok = d.AD_TYPE_SIZE
    · rw [if_pos hsize] at h
      cases h
      exact ⟨rfl, rfl⟩
    · rw [if_neg hsize] at h
      by_cases hH : d.parse_ad_type_string tok = d.AD_TYPE_H
      · rw [if_pos hH] at h
        cases h
        exact ⟨rfl, rfl⟩
      · rw [if_neg hH] at h
        cases ha : parse_atom d line (d.parse_ad_type_string tok) with
        | none => simp [ha] at h
        | some a =>
          simp only [ha, Option.some.injEq] at h
          rw [← h]
          exact ⟨classify_residue_start d _ a _, classify_residue d _ a _⟩

theorem residue_check_key_length (st : State Atom) (line : List Char) :
    (residue_check st line).residue.length = st.residue.length := by
  unfold residue_check
  split
  · simp
  · rfl

theorem process_line_key_length (d : Deps Atom F) (st st1 : State Atom) (line : List Char)
    (hlen : st.residue.length = 4) (h : process_line d st line = some st1) :
    st1.residue.length = 4 := by
  by_cases hrec : is_atom_record line = true
  · rw [(process_line_atom_key d st st1 line hrec h).2, residue_check_key_length]
    exact hlen
  · unfold process_line at h
    rw [if_neg hrec] at h
    split at h
    · cases h
      rfl
    · cases h
      exact hlen

/-- The tracked key has four characters in every state reached from the
initial one. -/
theorem parse_lines_key_length (d : Deps Atom F) :
    ∀ (lines : List (List Char)) (st st1 : State Atom), st.residue.length = 4 →
      parse_lines d st lines = some st1 → st1.residue.length = 4 := by
  intro lines
  induction lines with
  | nil =>
    intro st st1 hlen h
    simp only [parse_lines, Option.some.injEq] at h
    rw [← h]
    exact hlen
  | cons line rest ih =>
    intro st st1 hlen h
    unfold parse_lines at h
    cases h1 : process_line d st line with
    | none => simp [h1] at h
    | some st2 =>
      simp only [h1] at h
      exact ih st2 st1 (process_line_key_length d st st2 line hlen h1) h

/-- C10: for an atom line processed with a four-character tracked key, if
one of the characters at columns 23-26 differs from the tracked key, the
residue start index becomes the current length of the atom list and the
tracked key becomes those four characters; if all four agree, both are
unchanged. -/
theorem residue_change_rule (d : Deps Atom F) (st st1 : State Atom) (line : List Char)
    (hrec : is_atom_record line = true) (hlen : st.residue.length = 4)
    (h : process_line d st line = some st1) :
    ((∃ k, k < 4 ∧ line_at line (22 + k) ≠ line_at st.residue k) →
      st1.residue_start = st.atoms.length ∧
      st1.residue = [line_at line 22, line_at line 23, line_at line 24, line_at line 25]) ∧
    ((∀ k, k < 4 → line_at line (22 + k) = line_at st.residue k) →
      st1.residue_start = st.residue_start ∧ st1.residue = st.residue) := by
  have hk := process_line_atom_key d st st1 line hrec h
  rw [hk.1, hk.2]
  constructor
  · intro hd
    have hd2 := (residue_differs_iff st.residue line).2 hd
    unfold residue_check
    rw [if_pos hd2]
    exact ⟨rfl, residue_set_all st.residue _ _ _ _ hlen⟩
  · intro he
    have hd2 : ¬ residue_differs st.residue line = true := by
      intro hd
      rcases (residue_differs_iff st.residue line).1 hd with ⟨k, hk4, hne⟩
      exact hne (he k hk4)
    unfold residue_check
    rw [if_neg hd2]
    exact ⟨rfl, rfl⟩

end Reclassification

/-! ## Theorems : the partition grid -/

section GridTheorems

variable {Atom F : Type} [LinearOrder F]

theorem getD_map_range {β : Type} (f : Nat → List β) (n x : Nat) :
    ((List.range n).map f).getD x [] = if x < n then f x else [] := by
  rw [List.getD_eq_getElem?_getD, List.getElem?_map]
  by_cases h : x < n
  · rw [List.getElem?_range h, if_pos h]
    rfl
  · rw [List.getElem?_eq_none (by simpa using h), if_neg h]
    rfl

theorem mem_receptor_atoms_within_cutoff (d : Deps Atom F) (b : Box F) (Cutoff_Sqr : F)
    (atoms : List Atom) (i : Nat) :
    i ∈ receptor_atoms_within_cutoff d b Cutoff_Sqr atoms ↔
      ∃ a, atoms[i]? = some a ∧ b.project_distance_sqr (d.coordinate a) < Cutoff_Sqr := by
  unfold receptor_atoms_within_cutoff within_box
  rw [List.mem_filter, List.mem_range]
  constructor
  · rintro ⟨hi, h⟩
    rw [List.getElem?_eq_getElem hi] at h
    exact ⟨atoms[i], List.getElem?_eq_getElem hi, by simpa using h⟩
  · rintro ⟨a, ha, hlt⟩
    rcases List.getElem?_eq_some_iff.1 ha with ⟨hi, _⟩
    refine ⟨hi, ?_⟩
    rw [ha]
    simpa using hlt

/-- Membership in the bucket of a cell: the cell lies in the grid, the atom
passes the box-level test of line 97 and the cell-level test of line 120. -/
theorem mem_partition_iff (d : Deps Atom F) (b : Box F) (Cutoff_Sqr : F)
    (atoms : List Atom) (x y z i : Nat) :
    i ∈ receptor.partition
        { atoms := atoms, partitions := build_partitions d b Cutoff_Sqr atoms } x y z ↔
      x < b.num_partitions.1 ∧ y < b.num_partitions.2.1 ∧ z < b.num_partitions.2.2 ∧
      ∃ a, atoms[i]? = some a ∧
        b.project_distance_sqr (d.coordinate a) < Cutoff_Sqr ∧
        b.project_distance_sqr3 (b.partition_corner1 (x, y, z))
          (b.partition_corner1 (x + 1, y + 1, z + 1)) (d.coordinate a) < Cutoff_Sqr := by
  unfold receptor.partition build_partitions
  simp only
  by_cases hx : x < b.num_partitions.1
  · by_cases hy : y < b.num_partitions.2.1
    · by_cases hz : z < b.num_partitions.2.2
      · rw [getD_map_range, if_pos hx, getD_map_range, if_pos hy, getD_map_range, if_pos hz]
        unfold fill_partition within_cell
        simp only [List.mem_filter, mem_receptor_atoms_within_cutoff]
        constructor
        · rintro ⟨⟨a, ha, hbox⟩, hcell⟩
          rw [ha] at hcell
          exact ⟨hx, hy, hz, a, ha, hbox, by simpa using hcell⟩
        · rintro ⟨_, _, _, a, ha, hbox, hcell⟩
          refine ⟨⟨a, ha, hbox⟩, ?_⟩
          rw [ha]
          simpa using hcell
      · rw [getD_map_range, if_pos hx, getD_map_range, if_pos hy, getD_map_range, if_neg hz]
        simp [hz]
    · rw [getD_map_range, if_pos hx, getD_map_range, if_neg hy]
      simp [hy]
  · rw [getD_map_range, if_neg hx]
    simp [hx]

theorem receptor_of_parse (d : Deps Atom F) (b : Box F) (Cutoff_Sqr : F) (rs0 : Nat)
    (lines : List (List Char)) (r : receptor Atom)
    (hr : receptor.receptor d b Cutoff_Sqr rs0 lines = some r) :
    r = { atoms := r.atoms, partitions := build_partitions d b Cutoff_Sqr r.atoms } := by
  unfold receptor.receptor at hr
  cases hp : parse_lines d (State.initial rs0) lines with
  | none => simp [hp] at hr
  | some st =>
    simp only [hp, Option.some.injEq] at hr
    rw [← hr]

/-- The two tests of the code: for every cell of the grid and every stored
atom index `i`, if the atom passes the box-level pre-filter of line 97 and
the cell-level test of line 120, then `i` is in `partitions(x, y, z)`. -/
theorem mem_partition_of_tests (d : Deps Atom F) (b : Box F) (Cutoff_Sqr : F) (rs0 : Nat)
    (lines : List (List Char)) (r : receptor Atom)
    (hr : receptor.receptor d b Cutoff_Sqr rs0 lines = some r)
    (x y z i : Nat) (a : Atom)
    (hx : x < b.num_partitions.1) (hy : y < b.num_partitions.2.1)
    (hz : z < b.num_partitions.2.2) (ha : r.atoms[i]? = some a)
    (hbox : b.project_distance_sqr (d.coordinate a) < Cutoff_Sqr)
    (hcell : b.project_distance_sqr3 (b.partition_corner1 (x, y, z))
      (b.partition_corner1 (x + 1, y + 1, z + 1)) (d.coordinate a) < Cutoff_Sqr) :
    i ∈ r.partition x y z := by
  rw [receptor_of_parse d b Cutoff_Sqr rs0 lines r hr]
  exact (mem_partition_iff d b Cutoff_Sqr r.atoms x y z i).2
    ⟨hx, hy, hz, a, ha, hbox, hcell⟩

/-- C7: for a box whose cells lie inside it (`cells_within`), for every cell
`(x, y, z)` of the grid and every stored atom index `i`, if the projected
squared distance of the atom to the region bounded by the two corners of the
cell is strictly less than `Cutoff_Sqr`, then `i` is in
`partitions(x, y, z)`. -/
theorem partition_membership (d : Deps Atom F) (b : Box F) (Cutoff_Sqr : F) (rs0 : Nat)
    (lines : List (List Char)) (r : receptor Atom)
    (hcells : cells_within b)
    (hr : receptor.receptor d b Cutoff_Sqr rs0 lines = some r)
    (x y z i : Nat) (a : Atom)
    (hx : x < b.num_partitions.1) (hy : y < b.num_partitions.2.1)
    (hz : z < b.num_partitions.2.2) (ha : r.atoms[i]? = some a)
    (hcell : b.project_distance_sqr3 (b.partition_corner1 (x, y, z))
      (b.partition_corner1 (x + 1, y + 1, z + 1)) (d.coordinate a) < Cutoff_Sqr) :
    i ∈ r.partition x y z :=
  mem_partition_of_tests d b Cutoff_Sqr rs0 lines r hr x y z i a hx hy hz ha
    (lt_of_le_of_lt (hcells x y z hx hy hz (d.coordinate a)) hcell) hcell

/-- C8: a stored atom whose projected squared distance to the box is at least
`Cutoff_Sqr` (equality included) has its index in no bucket, inside or outside
the grid; and if every stored atom is such, every bucket is empty. -/
theorem open_cutoff_boundary (d : Deps Atom F) (b : Box F) (Cutoff_Sqr : F) (rs0 : Nat)
    (lines : List (List Char)) (r : receptor Atom)
    (hr : receptor.receptor d b Cutoff_Sqr rs0 lines = some r) :
    (∀ (i : Nat) (a : Atom), r.atoms[i]? = some a →
      Cutoff_Sqr ≤ b.project_distance_sqr (d.coordinate a) →
      ∀ x y z, i ∉ r.partition x y z) ∧
    ((∀ (i : Nat) (a : Atom), r.atoms[i]? = some a →
        Cutoff_Sqr ≤ b.project_distance_sqr (d.coordinate a)) →
      ∀ x y z, r.partition x y z = []) := by
  have hmem : ∀ i x y z, i ∈ r.partition x y z →
      ∃ a, r.atoms[i]? = some a ∧ b.project_distance_sqr (d.coordinate a) < Cutoff_Sqr := by
    intro i x y z hi
    rw [receptor_of_parse d b Cutoff_Sqr rs0 lines r hr] at hi
    rcases (mem_partition_iff d b Cutoff_Sqr r.atoms x y z i).1 hi with
      ⟨_, _, _, a, ha, hbox, _⟩
    exact ⟨a, ha, hbox⟩
  constructor
  · intro i a ha hge x y z hi
    rcases hmem i x y z hi with ⟨a1, ha1, hlt⟩
    rw [ha] at ha1
    cases ha1
    exact absurd hlt (not_lt.2 hge)
  · intro hall x y z
    apply List.eq_nil_iff_forall_not_mem.2
    intro i hi
    rcases hmem i x y z hi with ⟨a, ha, hlt⟩
    exact absurd hlt (not_lt.2 (hall i a ha))

end GridTheorems

/-! ## Evaluation on the concrete instance -/

/-- Evaluation of C3: a polar hydrogen at `(1, 0, 0)` after a nitrogen at the
origin in the same residue; index 0 is the target and the nitrogen becomes a
donor. -/
theorem polar_hydrogen_line_witness :
    donor_target demoDeps demo_atom_HD 0 [demo_atom_N] 1 0 ∧
    is_atom_record demo_line_HD = true ∧
    ad_type_string demo_line_HD = some ['H', 'D'] ∧
    parse_atom demoDeps demo_line_HD demoDeps.AD_TYPE_HD = some demo_atom_HD ∧
    process_line demoDeps demo_state_N demo_line_HD =
      some { atoms := [{ demo_atom_N with donor := true }, demo_atom_HD],
             residue := ['1', ' ', ' ', ' '], residue_start := 0 } ∧
    ∃ st1, process_line demoDeps demo_state_N demo_line_HD = some st1 ∧
      st1.atoms.length = demo_state_N.atoms.length + 1 ∧
      st1.atoms[demo_state_N.atoms.length]? = some demo_atom_HD ∧
      (∀ j b, demo_state_N.atoms[j]? = some b →
        (donor_target demoDeps demo_atom_HD
            (residue_check demo_state_N demo_line_HD).residue_start demo_state_N.atoms
            demo_state_N.atoms.length j →
          st1.atoms[j]? = some (demoDeps.donorize b)) ∧
        (¬ donor_target demoDeps demo_atom_HD
            (residue_check demo_state_N demo_line_HD).residue_start demo_state_N.atoms
            demo_state_N.atoms.length j →
          st1.atoms[j]? = some b)) ∧
      ∀ j k, donor_target demoDeps demo_atom_HD
          (residue_check demo_state_N demo_line_HD).residue_start demo_state_N.atoms
          demo_state_N.atoms.length j →
        donor_target demoDeps demo_atom_HD
          (residue_check demo_state_N demo_line_HD).residue_start demo_state_N.atoms
          demo_state_N.atoms.length k →
        j = k :=
  ⟨⟨by decide, by decide, ⟨demo_atom_N, by decide, by decide, by decide⟩,
      fun k _ h1 h2 => by omega⟩,
    by decide, by decide, by decide, by decide,
    polar_hydrogen_line demoDeps demo_state_N demo_line_HD ['H', 'D'] demo_atom_HD
      (by decide) (by decide) (by decide) (by decide) (by decide) (by decide)⟩

/-- Evaluation of C4: a nitrogen at the origin after two carbons of the same
residue, both within bond distance; both lose the hydrophobic flag. -/
theorem hetero_line_witness :
    is_atom_record demo_line_N = true ∧
    ad_type_string demo_line_N = some ['N'] ∧
    parse_atom demoDeps demo_line_N (demoDeps.parse_ad_type_string ['N']) = some demo_atom_N ∧
    demoDeps.is_hetero demo_atom_N = true ∧
    process_line demoDeps demo_state_CC demo_line_N =
      some { atoms := [{ demo_atom_C with hydrophobic := false },
                       { demo_atom_C2 with hydrophobic := false }, demo_atom_N],
             residue := ['1', ' ', ' ', ' '], residue_start := 0 } ∧
    ∃ st1, process_line demoDeps demo_state_CC demo_line_N = some st1 ∧
      st1.atoms.length = demo_state_CC.atoms.length + 1 ∧
      st1.atoms[demo_state_CC.atoms.length]? = some demo_atom_N ∧
      ∀ j b, demo_state_CC.atoms[j]? = some b →
        st1.atoms[j]? = some
          (if (residue_check demo_state_CC demo_line_N).residue_start ≤ j ∧
              demoDeps.is_hetero b = false ∧ demoDeps.is_neighbor b demo_atom_N = true
            then demoDeps.dehydrophobicize b else b) :=
  ⟨by decide, by decide, by decide, by decide, by decide,
    hetero_line demoDeps demo_state_CC demo_line_N ['N'] demo_atom_N
      (by decide) (by decide) (by decide) (by decide) (by decide) (by decide) (by decide)⟩

/-- Evaluation of C5: a carbon at `(0, 1, 0)` after a nitrogen at the origin
in the same residue; the carbon is appended without its hydrophobic flag. -/
theorem carbon_line_witness :
    has_hetero_neighbor demoDeps demo_atom_C 0 [demo_atom_N] 1 ∧
    is_atom_record demo_line_C = true ∧
    ad_type_string demo_line_C = some ['C'] ∧
    parse_atom demoDeps demo_line_C (demoDeps.parse_ad_type_string ['C']) = some demo_atom_C ∧
    demoDeps.is_hetero demo_atom_C = false ∧
    process_line demoDeps demo_state_N demo_line_C =
      some { atoms := [demo_atom_N, { demo_atom_C with hydrophobic := false }],
             residue := ['1', ' ', ' ', ' '], residue_start := 0 } ∧
    ∃ st1, process_line demoDeps demo_state_N demo_line_C = some st1 ∧
      (has_hetero_neighbor demoDeps demo_atom_C
          (residue_check demo_state_N demo_line_C).residue_start demo_state_N.atoms
          demo_state_N.atoms.length →
        st1.atoms = demo_state_N.atoms ++ [demoDeps.dehydrophobicize demo_atom_C]) ∧
      (¬ has_hetero_neighbor demoDeps demo_atom_C
          (residue_check demo_state_N demo_line_C).residue_start demo_state_N.atoms
          demo_state_N.atoms.length →
        st1.atoms = demo_state_N.atoms ++ [demo_atom_C]) :=
  ⟨⟨0, demo_atom_N, by decide, by decide, by decide, by decide, by decide⟩,
    by decide, by decide, by decide, by decide, by decide,
    carbon_line demoDeps demo_state_N demo_line_C ['C'] demo_atom_C
      (by decide) (by decide) (by decide) (by decide) (by decide) (by decide) (by decide)⟩

/-- Evaluation of C6: a nitrogen of residue `2` starts a new residue at
index 1; neither it nor the polar hydrogen that follows, one unit from the
stored nitrogen of index 0, changes that atom. -/
theorem residue_local_witness :
    process_line demoDeps demo_state_N demo_line_N2 =
      some { atoms := [demo_atom_N, demo_atom_N2], residue := ['2', ' ', ' ', ' '],
             residue_start := 1 } ∧
    parse_lines demoDeps
        { atoms := [demo_atom_N, demo_atom_N2], residue := ['2', ' ', ' ', ' '],
          residue_start := 1 }
        [demo_line_HD] =
      some { atoms := [demo_atom_N, demo_atom_N2, demo_atom_HD],
             residue := ['1', ' ', ' ', ' '], residue_start := 2 } ∧
    (0 : Nat) < 1 ∧ 0 < demo_state_N.atoms.length ∧
    [demo_atom_N, demo_atom_N2][0]? = demo_state_N.atoms[0]? ∧
    [demo_atom_N, demo_atom_N2, demo_atom_HD][0]? = demo_state_N.atoms[0]? :=
  ⟨by decide, by decide, by decide, by decide,
    residue_local demoDeps demo_state_N
      { atoms := [demo_atom_N, demo_atom_N2], residue := ['2', ' ', ' ', ' '],
        residue_start := 1 }
      { atoms := [demo_atom_N, demo_atom_N2, demo_atom_HD],
        residue := ['1', ' ', ' ', ' '], residue_start := 2 }
      demo_line_N2 [demo_line_HD] (by decide) (by decide) 0 (by decide) (by decide)⟩

/-- Evaluation of C9: a non-polar hydrogen line of residue `2` leaves the atom
list as it is (the residue key and start index do change). -/
theorem skipped_line_witness :
    is_atom_record demo_line_H = true ∧
    ad_type_string demo_line_H = some ['H'] ∧
    (demoDeps.parse_ad_type_string ['H'] = demoDeps.AD_TYPE_SIZE ∨
      demoDeps.parse_ad_type_string ['H'] = demoDeps.AD_TYPE_H) ∧
    process_line demoDeps demo_state_N demo_line_H =
      some { atoms := [demo_atom_N], residue := ['2', ' ', ' ', ' '], residue_start := 1 } ∧
    ∃ st1, process_line demoDeps demo_state_N demo_line_H = some st1 ∧
      st1.atoms = demo_state_N.atoms :=
  ⟨by decide, by decide, by decide, by decide,
    skipped_line demoDeps demo_state_N demo_line_H ['H'] (by decide) (by decide) (by decide)⟩

/-- Evaluation of C10: the key `"2   "` after the tracked key `"1   "`. -/
theorem residue_change_rule_witness :
    is_atom_record demo_line_N2 = true ∧
    demo_state_N.residue.length = 4 ∧
    process_line demoDeps demo_state_N demo_line_N2 =
      some { atoms := [demo_atom_N, demo_atom_N2], residue := ['2', ' ', ' ', ' '],
             residue_start := 1 } ∧
    ((∃ k, k < 4 ∧ line_at demo_line_N2 (22 + k) ≠ line_at demo_state_N.residue k) →
      (1 : Nat) = demo_state_N.atoms.length ∧
      ['2', ' ', ' ', ' '] = [line_at demo_line_N2 22, line_at demo_line_N2 23,
        line_at demo_line_N2 24, line_at demo_line_N2 25]) ∧
    ((∀ k, k < 4 → line_at demo_line_N2 (22 + k) = line_at demo_state_N.residue k) →
      (1 : Nat) = demo_state_N.residue_start ∧
      ['2', ' ', ' ', ' '] = demo_state_N.residue) :=
  ⟨by decide, by decide, by decide,
    residue_change_rule demoDeps demo_state_N
      { atoms := [demo_atom_N, demo_atom_N2], residue := ['2', ' ', ' ', ' '],
        residue_start := 1 }
      demo_line_N2 (by decide) (by decide) (by decide)⟩

theorem demo_clamp_sq_le (lo hi lo1 hi1 v : Int) (h1 : lo ≤ lo1) (h2 : lo1 ≤ hi1)
    (h3 : hi1 ≤ hi) :
    (demo_clamp lo hi v - v) * (demo_clamp lo hi v - v) ≤
      (demo_clamp lo1 hi1 v - v) * (demo_clamp lo1 hi1 v - v) := by
  unfold demo_clamp
  split_ifs <;> nlinarith

theorem demo_project_distance_sqr_le (c1 c2 e1 e2 p : vec3 Int)
    (h0 : c1.v0 ≤ e1.v0 ∧ e1.v0 ≤ e2.v0 ∧ e2.v0 ≤ c2.v0)
    (h1 : c1.v1 ≤ e1.v1 ∧ e1.v1 ≤ e2.v1 ∧ e2.v1 ≤ c2.v1)
    (h2 : c1.v2 ≤ e1.v2 ∧ e1.v2 ≤ e2.v2 ∧ e2.v2 ≤ c2.v2) :
    demo_project_distance_sqr c1 c2 p ≤ demo_project_distance_sqr e1 e2 p := by
  unfold demo_project_distance_sqr demo_distance_sqr
  have a0 := demo_clamp_sq_le c1.v0 c2.v0 e1.v0 e2.v0 p.v0 h0.1 h0.2.1 h0.2.2
  have a1 := demo_clamp_sq_le c1.v1 c2.v1 e1.v1 e2.v1 p.v1 h1.1 h1.2.1 h1.2.2
  have a2 := demo_clamp_sq_le c1.v2 c2.v2 e1.v2 e2.v2 p.v2 h2.1 h2.2.1 h2.2.2
  simp only
  omega

/-- The cells of `demo_box_tiled` lie inside the box. -/
theorem demo_box_tiled_cells_within : cells_within demo_box_tiled := by
  intro x y z hx hy hz p
  have hx3 : x < 3 := hx
  have hy3 : y < 3 := hy
  have hz3 : z < 3 := hz
  apply demo_project_distance_sqr_le
  · simp only [demo_box_tiled]
    omega
  · simp only [demo_box_tiled]
    omega
  · simp only [demo_box_tiled]
    omega

/-- Evaluation of C7: in the box `demo_box_tiled` with Cutoff_Sqr = 64, the
nitrogen at `(19, 0, 0)` is at squared distance 49 from the region of cell
`(2, 0, 0)`, whose corners are `(8, 0, 0)` and `(12, 4, 4)`, and its index
is in the bucket of that cell. -/
theorem partition_membership_witness :
    cells_within demo_box_tiled ∧
    receptor.receptor demoDeps demo_box_tiled 64 0 [demo_line_far] =
      some { atoms := [demo_atom_far],
             partitions := build_partitions demoDeps demo_box_tiled 64 [demo_atom_far] } ∧
    2 < demo_box_tiled.num_partitions.1 ∧ 0 < demo_box_tiled.num_partitions.2.1 ∧
    0 < demo_box_tiled.num_partitions.2.2 ∧
    [demo_atom_far][0]? = some demo_atom_far ∧
    demo_box_tiled.project_distance_sqr3 (demo_box_tiled.partition_corner1 (2, 0, 0))
      (demo_box_tiled.partition_corner1 (2 + 1, 0 + 1, 0 + 1))
      (demoDeps.coordinate demo_atom_far) = 49 ∧
    (49 : Int) < 64 ∧
    0 ∈ receptor.partition
      { atoms := [demo_atom_far],
        partitions := build_partitions demoDeps demo_box_tiled 64 [demo_atom_far] } 2 0 0 :=
  ⟨demo_box_tiled_cells_within, by decide, by decide, by decide, by decide, by decide,
    by decide, by decide,
    partition_membership demoDeps demo_box_tiled 64 0 [demo_line_far]
      { atoms := [demo_atom_far],
        partitions := build_partitions demoDeps demo_box_tiled 64 [demo_atom_far] }
      demo_box_tiled_cells_within (by decide) 2 0 0 0 demo_atom_far (by decide) (by decide)
      (by decide) (by decide) (by decide)⟩

/-- Remark on the hypothesis `cells_within`: in `demo_box`, whose last cell
spans `[8, 12]` while the box ends at 10, the hypothesis does not hold. With
Cutoff_Sqr = 64 the atom at `(19, 0, 0)` is at squared distance 49 from the
region of cell `(2, 0, 0)` and 81 from the box, and the pre-filter of lines
94-101 keeps it out of every bucket. -/
theorem overhanging_cell_bucket_empty :
    ¬ cells_within demo_box ∧
    receptor.receptor demoDeps demo_box 64 0 [demo_line_far] =
      some { atoms := [demo_atom_far],
             partitions := build_partitions demoDeps demo_box 64 [demo_atom_far] } ∧
    demo_box.project_distance_sqr3 (demo_box.partition_corner1 (2, 0, 0))
      (demo_box.partition_corner1 (2 + 1, 0 + 1, 0 + 1))
      (demoDeps.coordinate demo_atom_far) = 49 ∧
    demo_box.project_distance_sqr (demoDeps.coordinate demo_atom_far) = 81 ∧
    0 ∉ receptor.partition
      { atoms := [demo_atom_far],
        partitions := build_partitions demoDeps demo_box 64 [demo_atom_far] } 2 0 0 := by
  refine ⟨fun h => ?_, by decide, by decide, by decide, by decide⟩
  have h1 := h 2 0 0 (by decide) (by decide) (by decide) (demoDeps.coordinate demo_atom_far)
  revert h1
  decide

/-- Evaluation of C8: with Cutoff_Sqr = 64 the atom at `(18, 0, 0)` is at
squared distance exactly 64 from the box and all buckets are empty. -/
theorem open_cutoff_boundary_witness :
    receptor.receptor demoDeps demo_box 64 0 [demo_line_edge] =
      some { atoms := [demo_atom_edge],
             partitions := build_partitions demoDeps demo_box 64 [demo_atom_edge] } ∧
    demo_box.project_distance_sqr (demoDeps.coordinate demo_atom_edge) = 64 ∧
    (∀ (i : Nat) (a : DemoAtom), [demo_atom_edge][i]? = some a →
      64 ≤ demo_box.project_distance_sqr (demoDeps.coordinate a) →
      ∀ x y z, i ∉ receptor.partition
        { atoms := [demo_atom_edge],
          partitions := build_partitions demoDeps demo_box 64 [demo_atom_edge] } x y z) ∧
    ((∀ (i : Nat) (a : DemoAtom), [demo_atom_edge][i]? = some a →
        64 ≤ demo_box.project_distance_sqr (demoDeps.coordinate a)) →
      ∀ x y z, receptor.partition
        { atoms := [demo_atom_edge],
          partitions := build_partitions demoDeps demo_box 64 [demo_atom_edge] } x y z = []) :=
  ⟨by decide, by decide,
    open_cutoff_boundary demoDeps demo_box 64 0 [demo_line_edge]
      { atoms := [demo_atom_edge],
        partitions := build_partitions demoDeps demo_box 64 [demo_atom_edge] }
      (by decide)⟩

/-! ## Theorems : terminator, chain id, malformed lines -/

section Boundaries

variable {Atom F : Type}

theorem is_atom_record_of_TER (line : List Char) (h : record_of line = record_TER) :
    is_atom_record line = false := by
  unfold is_atom_record
  rw [h]
  decide

theorem process_line_TER (d : Deps Atom F) (st : State Atom) (line : List Char)
    (h : record_of line = record_TER) :
    process_line d st line = some { st with residue := residue_dummy } := by
  unfold process_line
  rw [is_atom_record_of_TER line h, h]
  simp

theorem process_line_non_atom (d : Deps Atom F) (st : State Atom) (line : List Char)
    (hrec : is_atom_record line = false) (hres : st.residue = residue_dummy) :
    process_line d st line = some st := by
  unfold process_line
  rw [hrec]
  simp only [Bool.false_eq_true, if_false]
  split
  · cases st
    simp only at hres
    rw [hres]
  · rfl

theorem parse_lines_non_atom (d : Deps Atom F) :
    ∀ (mid : List (List Char)) (st : State Atom) (rest : List (List Char)),
      st.residue = residue_dummy → (∀ l ∈ mid, is_atom_record l = false) →
      parse_lines d st (mid ++ rest) = parse_lines d st rest := by
  intro mid
  induction mid with
  | nil => intro st rest _ _; rfl
  | cons l mid ih =>
    intro st rest hres hmid
    rw [List.cons_append, parse_lines,
      process_line_non_atom d st l (hmid l (List.mem_cons_self l mid)) hres]
    exact ih st rest hres (fun l1 h1 => hmid l1 (List.mem_cons_of_mem l h1))

theorem parse_lines_single (d : Deps Atom F) (st : State Atom) (line : List Char) :
    parse_lines d st [line] = process_line d st line := by
  unfold parse_lines
  cases process_line d st line with
  | none => rfl
  | some st1 => rfl

/-- C11, as the code has it: the first atom line after a `TER` record (with
any non-atom lines between) starts a new residue whenever its columns 23-26
are not exactly the dummy key `XXXX`: the residue start index becomes the
length of the atom list at that moment and no atom stored before is
modified. -/
theorem terminator_new_residue (d : Deps Atom F) (st st2 : State Atom)
    (ter line : List Char) (mid : List (List Char))
    (hter : record_of ter = record_TER)
    (hmid : ∀ l ∈ mid, is_atom_record l = false)
    (hrec : is_atom_record line = true)
    (hX : ∃ k, k < 4 ∧ line_at line (22 + k) ≠ 'X')
    (h : parse_lines d st (ter :: (mid ++ [line])) = some st2) :
    st2.residue_start = st.atoms.length ∧
      ∀ j, j < st.atoms.length → st2.atoms[j]? = st.atoms[j]? := by
  rw [parse_lines, process_line_TER d st ter hter] at h
  simp only at h
  rw [parse_lines_non_atom d mid _ [line] rfl hmid, parse_lines_single] at h
  have hk := process_line_atom_key d _ st2 line hrec h
  have hd : residue_differs residue_dummy line = true := by
    rw [residue_differs_iff]
    rcases hX with ⟨k, hk4, hne⟩
    refine ⟨k, hk4, ?_⟩
    have hcases : k = 0 ∨ k = 1 ∨ k = 2 ∨ k = 3 := by omega
    rcases hcases with rfl | rfl | rfl | rfl <;> exact hne
  have hrs : st2.residue_start = st.atoms.length := by
    rw [hk.1]
    unfold residue_check
    rw [if_pos hd]
  refine ⟨hrs, fun j hj => ?_⟩
  exact process_line_below d _ st2 line h j (by rw [hrs]; exact hj) hj

theorem process_line_tracks_key (d : Deps Atom F) (st st1 : State Atom) (line : List Char)
    (hrec : is_atom_record line = true) (hlen : st.residue.length = 4)
    (h : process_line d st line = some st1) :
    ∀ k, k < 4 → line_at st1.residue k = line_at line (22 + k) := by
  have hk := process_line_atom_key d st st1 line hrec h
  rw [hk.2]
  unfold residue_check
  by_cases hd : residue_differs st.residue line = true
  · rw [if_pos hd]
    simp only
    rw [residue_set_all st.residue _ _ _ _ hlen]
    intro k hk4
    have hcases : k = 0 ∨ k = 1 ∨ k = 2 ∨ k = 3 := by omega
    rcases hcases with rfl | rfl | rfl | rfl <;> rfl
  · rw [if_neg hd]
    intro k hk4
    by_contra hne
    exact hd ((residue_differs_iff st.residue line).2 ⟨k, hk4, fun e => hne e.symm⟩)

/-- C12, as the code has it: the tracked key is columns 23-26 only. For two
consecutive atom lines that agree on columns 23-26, the second line leaves
the residue start index and the tracked key unchanged, whatever the chain
ids at column 22 are. -/
theorem chain_id_not_in_key (d : Deps Atom F) (st st1 st2 : State Atom)
    (line1 line2 : List Char) (hrec1 : is_atom_record line1 = true)
    (hrec2 : is_atom_record line2 = true) (hlen : st.residue.length = 4)
    (h1 : process_line d st line1 = some st1) (h2 : process_line d st1 line2 = some st2)
    (hsame : ∀ k, k < 4 → line_at line2 (22 + k) = line_at line1 (22 + k)) :
    st2.residue_start = st1.residue_start ∧ st2.residue = st1.residue := by
  have hkey := process_line_tracks_key d st st1 line1 hrec1 hlen h1
  have hk := process_line_atom_key d st1 st2 line2 hrec2 h2
  have hd : ¬ residue_differs st1.residue line2 = true := by
    intro hd
    rcases (residue_differs_iff st1.residue line2).1 hd with ⟨k, hk4, hne⟩
    exact hne ((hsame k hk4).trans (hkey k hk4).symm)
  rw [hk.1, hk.2]
  unfold residue_check
  rw [if_neg hd]
  exact ⟨rfl, rfl⟩

end Boundaries

section BoundariesGrid

variable {Atom F : Type} [LinearOrder F]

end BoundariesGrid

/-- Evaluation of C11 as amended: after a nitrogen and a `TER` line, a polar
hydrogen of residue sequence `1` one unit from the nitrogen starts a new
residue at index 1 and leaves the nitrogen as it was. -/
theorem terminator_new_residue_witness :
    record_of demo_line_TER = record_TER ∧
    (∀ l ∈ ([] : List (List Char)), is_atom_record l = false) ∧
    is_atom_record demo_line_HD = true ∧
    (∃ k, k < 4 ∧ line_at demo_line_HD (22 + k) ≠ 'X') ∧
    parse_lines demoDeps demo_state_N (demo_line_TER :: ([] ++ [demo_line_HD])) =
      some { atoms := [demo_atom_N, demo_atom_HD], residue := ['1', ' ', ' ', ' '],
             residue_start := 1 } ∧
    (1 : Nat) = demo_state_N.atoms.length ∧
    ∀ j, j < demo_state_N.atoms.length →
      [demo_atom_N, demo_atom_HD][j]? = demo_state_N.atoms[j]? :=
  ⟨by decide, by decide, by decide, ⟨0, by decide, by decide⟩, by decide,
    terminator_new_residue demoDeps demo_state_N
      { atoms := [demo_atom_N, demo_atom_HD], residue := ['1', ' ', ' ', ' '],
        residue_start := 1 }
      demo_line_TER demo_line_HD [] (by decide) (by decide) (by decide)
      ⟨0, by decide, by decide⟩ (by decide)⟩

/-- C11 as stated fails: after a nitrogen and a `TER` line, a polar hydrogen
whose columns 23-26 read `XXXX` equals the dummy key, so the residue start
index stays 0 instead of becoming the list length 1, and the nitrogen stored
before the `TER` is scanned and donorized. -/
theorem terminator_new_residue_counterexample :
    record_of demo_line_TER = record_TER ∧
    is_atom_record demo_line_HDX = true ∧
    demo_state_N.atoms.length = 1 ∧
    demo_state_N.atoms[0]? = some demo_atom_N ∧
    (parse_lines demoDeps demo_state_N [demo_line_TER, demo_line_HDX]).map
      (fun st => (st.residue_start, st.atoms[0]?)) =
      some (0, some { demo_atom_N with donor := true }) := by
  decide

/-- Evaluation of C12 as amended: a nitrogen of chain `A` and a polar
hydrogen of chain `B`, both of residue sequence `1`; the second line keeps
residue start 0 and the key. -/
theorem chain_id_not_in_key_witness :
    is_atom_record demo_line_N = true ∧
    is_atom_record demo_line_HD_chainB = true ∧
    (State.initial 0 : State DemoAtom).residue.length = 4 ∧
    process_line demoDeps (State.initial 0) demo_line_N = some demo_state_N ∧
    (process_line demoDeps demo_state_N demo_line_HD_chainB).isSome = true ∧
    (∀ k, k < 4 → line_at demo_line_HD_chainB (22 + k) = line_at demo_line_N (22 + k)) ∧
    ∀ st2, process_line demoDeps demo_state_N demo_line_HD_chainB = some st2 →
      st2.residue_start = demo_state_N.residue_start ∧ st2.residue = demo_state_N.residue :=
  ⟨by decide, by decide, by decide, by decide, by decide, by decide,
    fun st2 h2 => chain_id_not_in_key demoDeps (State.initial 0) demo_state_N st2
      demo_line_N demo_line_HD_chainB (by decide) (by decide) (by decide) (by decide) h2
      (by decide)⟩

/-- C12 as stated fails: the second of two consecutive atom lines differs
from the first in the chain id at column 22 (`B` after `A`) and agrees on
columns 23-26, yet the residue start index stays 0 instead of becoming the
list length 1, and the nitrogen of chain `A` is donorized. -/
theorem chain_id_not_in_key_counterexample :
    line_at demo_line_N 21 = 'A' ∧ line_at demo_line_HD_chainB 21 = 'B' ∧
    (∀ k, k < 4 → line_at demo_line_HD_chainB (22 + k) = line_at demo_line_N (22 + k)) ∧
    (parse_lines demoDeps (State.initial 0) [demo_line_N]).map
      (fun st => st.atoms.length) = some 1 ∧
    (parse_lines demoDeps (State.initial 0) [demo_line_N, demo_line_HD_chainB]).map
      (fun st => (st.residue_start, st.atoms[0]?)) =
      some (0, some { demo_atom_N with donor := true }) := by
  decide

section ConversionTheorems

variable {R : Type} [LinearOrderedField R]

/-- C14: `is_normalized` tests the deviation of `norm_sqr` from 1 on one side
only: it is true exactly when `norm_sqr q - 1 < 1e-5`. On the zero quaternion
it is true although `|norm_sqr q - 1| = 1`. -/
theorem is_normalized_one_sided :
    (∀ q : qtn4 R, is_normalized q = true ↔ norm_sqr q - 1 < 1 / 100000) ∧
    is_normalized ({ q0 := 0, q1 := 0, q2 := 0, q3 := 0 } : qtn4 R) = true ∧
    ¬ (|norm_sqr ({ q0 := 0, q1 := 0, q2 := 0, q3 := 0 } : qtn4 R) - 1| < 1 / 100000) := by
  refine ⟨fun q => ?_, ?_, ?_⟩
  · simp [is_normalized]
  · simp only [is_normalized, norm_sqr, decide_eq_true_eq]
    norm_num
  · simp only [norm_sqr]
    norm_num

theorem norm_sqr_vec4_to_qtn4 (L : Lib R) (axis : vec3 R) (angle : R)
    (hsc : ∀ x, L.sin x * L.sin x + L.cos x * L.cos x = 1)
    (haxis : axis.v0 * axis.v0 + axis.v1 * axis.v1 + axis.v2 * axis.v2 = 1) :
    norm_sqr (vec4_to_qtn4 L axis angle) = 1 := by
  have h := hsc (angle * (1 / 2))
  simp only [norm_sqr, vec4_to_qtn4]
  linear_combination h + L.sin (angle * (1 / 2)) * L.sin (angle * (1 / 2)) * haxis

/-- C15: for a unit-length axis and any angle, `vec4_to_qtn4 axis angle` is
`(cos (angle / 2), sin (angle / 2) * axis)` and its `norm_sqr` is 1, for any
`sin`, `cos` with `sin x * sin x + cos x * cos x = 1` (the real ones). -/
theorem vec4_to_qtn4_unit (L : Lib R) (axis : vec3 R) (angle : R)
    (hsc : ∀ x, L.sin x * L.sin x + L.cos x * L.cos x = 1)
    (haxis : axis.v0 * axis.v0 + axis.v1 * axis.v1 + axis.v2 * axis.v2 = 1) :
    vec4_to_qtn4 L axis angle =
      { q0 := L.cos (angle / 2), q1 := L.sin (angle / 2) * axis.v0,
        q2 := L.sin (angle / 2) * axis.v1, q3 := L.sin (angle / 2) * axis.v2 } ∧
    norm_sqr (vec4_to_qtn4 L axis angle) = 1 := by
  refine ⟨?_, norm_sqr_vec4_to_qtn4 L axis angle hsc haxis⟩
  simp only [vec4_to_qtn4, mul_one_div]

theorem norm_sqr_vec3_to_qtn4 (L : Lib R) (v : vec3 R)
    (hsc : ∀ x, L.sin x * L.sin x + L.cos x * L.cos x = 1)
    (hsqrt : ∀ x, 0 ≤ x → L.sqrt x * L.sqrt x = x)
    (hv : v.v0 ≠ 0 ∨ v.v1 ≠ 0 ∨ v.v2 ≠ 0) :
    norm_sqr (vec3_to_qtn4 L v) = 1 := by
  unfold vec3_to_qtn4
  split
  · simp [norm_sqr]
  · have hpos : 0 < v.v0 * v.v0 + v.v1 * v.v1 + v.v2 * v.v2 := by
      rcases hv with h | h | h
      · have := mul_self_pos.2 h
        nlinarith [mul_self_nonneg v.v1, mul_self_nonneg v.v2]
      · have := mul_self_pos.2 h
        nlinarith [mul_self_nonneg v.v0, mul_self_nonneg v.v2]
      · have := mul_self_pos.2 h
        nlinarith [mul_self_nonneg v.v0, mul_self_nonneg v.v1]
    have hs := hsqrt _ (le_of_lt hpos)
    have hne : vec3_norm L v ≠ 0 := by
      intro h0
      unfold vec3_norm at h0
      rw [h0] at hs
      simp only [mul_zero] at hs
      exact absurd hs.symm (ne_of_gt hpos)
    apply norm_sqr_vec4_to_qtn4 L _ _ hsc
    simp only [vec3_scale]
    have hs2 : vec3_norm L v * vec3_norm L v =
        v.v0 * v.v0 + v.v1 * v.v1 + v.v2 * v.v2 := hs
    field_simp
    linear_combination -hs2

theorem norm_sqr_normalize (L : Lib R) (q : qtn4 R)
    (hsqrt : ∀ x, 0 ≤ x → L.sqrt x * L.sqrt x = x) (hq : norm_sqr q = 1) :
    norm_sqr (normalize L q) = 1 := by
  have hs : L.sqrt 1 * L.sqrt 1 = 1 := hsqrt 1 zero_le_one
  have hne : L.sqrt 1 ≠ 0 := by
    intro h0
    rw [h0] at hs
    simp at hs
  have hinv : (1 / L.sqrt 1) * (1 / L.sqrt 1) = 1 := by
    field_simp
    exact hs.symm
  simp only [norm_sqr, normalize, norm] at hq ⊢
  rw [hq]
  linear_combination (1 / L.sqrt 1 * (1 / L.sqrt 1)) * hq + hinv

/-- C16: for a non-zero rotation vector `v`, `vec3_to_qtn4 v` has `norm_sqr`
1 (so it is not the zero quaternion) and `normalize (vec3_to_qtn4 v)` has
`norm_sqr` exactly 1, hence within `1e-5` of 1; for any `sin`, `cos`, `sqrt`
with `sin x * sin x + cos x * cos x = 1` and `sqrt x * sqrt x = x` on
`0 ≤ x` (the real ones), and whatever the test `zero()` answers. -/
theorem normalize_vec3_to_qtn4 (L : Lib R) (v : vec3 R)
    (hsc : ∀ x, L.sin x * L.sin x + L.cos x * L.cos x = 1)
    (hsqrt : ∀ x, 0 ≤ x → L.sqrt x * L.sqrt x = x)
    (hv : v.v0 ≠ 0 ∨ v.v1 ≠ 0 ∨ v.v2 ≠ 0) :
    norm_sqr (vec3_to_qtn4 L v) = 1 ∧
    vec3_to_qtn4 L v ≠ { q0 := 0, q1 := 0, q2 := 0, q3 := 0 } ∧
    norm_sqr (normalize L (vec3_to_qtn4 L v)) = 1 ∧
    |norm_sqr (normalize L (vec3_to_qtn4 L v)) - 1| < 1 / 100000 := by
  have h1 := norm_sqr_vec3_to_qtn4 L v hsc hsqrt hv
  have h2 := norm_sqr_normalize L _ hsqrt h1
  refine ⟨h1, ?_, h2, ?_⟩
  · intro h0
    rw [h0] at h1
    simp [norm_sqr] at h1
  · rw [h2]
    norm_num

/-- C17: on the zero vector, which the test `zero()` accepts, `vec3_to_qtn4`
returns the identity quaternion `(1, 0, 0, 0)`, whatever `sqrt`, `sin` and
`cos` are: the branch holding the division is not taken. -/
theorem vec3_to_qtn4_zero (L : Lib R)
    (hz : L.zero { v0 := 0, v1 := 0, v2 := 0 } = true) :
    vec3_to_qtn4 L { v0 := 0, v1 := 0, v2 := 0 } = { q0 := 1, q1 := 0, q2 := 0, q3 := 0 } := by
  unfold vec3_to_qtn4
  rw [if_pos hz]

end ConversionTheorems

section MatrixTheorems

variable {R : Type} [CommRing R]

/-- C18: `qtn4_to_mat3` of the identity quaternion `(1, 0, 0, 0)` is the
identity matrix `(1,0,0, 0,1,0, 0,0,1)` in row-major order. -/
theorem qtn4_to_mat3_identity :
    qtn4_to_mat3 ({ q0 := 1, q1 := 0, q2 := 0, q3 := 0 } : qtn4 R) =
      { m0 := 1, m1 := 0, m2 := 0, m3 := 0, m4 := 1, m5 := 0, m6 := 0, m7 := 0, m8 := 1 } := by
  simp [qtn4_to_mat3]

/-- C19: for every quaternion `q` the matrix `M = qtn4_to_mat3 q` satisfies
`M * Mᵀ = norm_sqr q ^ 2 • 1` and `det M = norm_sqr q ^ 3`; for a unit
quaternion `M * Mᵀ = 1` and `det M = 1`, a proper rotation. -/
theorem qtn4_to_mat3_rotation (q : qtn4 R) :
    (qtn4_to_mat3 q).toMatrix * (qtn4_to_mat3 q).toMatrix.transpose =
      (norm_sqr q ^ 2) • (1 : Matrix (Fin 3) (Fin 3) R) ∧
    (qtn4_to_mat3 q).toMatrix.det = norm_sqr q ^ 3 ∧
    (norm_sqr q = 1 →
      (qtn4_to_mat3 q).toMatrix * (qtn4_to_mat3 q).toMatrix.transpose = 1 ∧
      (qtn4_to_mat3 q).toMatrix.det = 1) := by
  have hmul : (qtn4_to_mat3 q).toMatrix * (qtn4_to_mat3 q).toMatrix.transpose =
      (norm_sqr q ^ 2) • (1 : Matrix (Fin 3) (Fin 3) R) := by
    ext i j
    rw [Matrix.mul_apply, Fin.sum_univ_three]
    simp only [Matrix.transpose_apply, Matrix.smul_apply, Matrix.one_apply, smul_eq_mul]
    fin_cases i <;> fin_cases j <;>
      simp [mat3.toMatrix, qtn4_to_mat3, norm_sqr] <;> ring
  have hdet : (qtn4_to_mat3 q).toMatrix.det = norm_sqr q ^ 3 := by
    rw [Matrix.det_fin_three]
    simp only [mat3.toMatrix, qtn4_to_mat3, norm_sqr, Matrix.of_apply, Matrix.cons_val_zero,
      Matrix.cons_val_one, Matrix.cons_val_two, Matrix.head_cons, Matrix.tail_cons]
    ring
  refine ⟨hmul, hdet, fun h1 => ?_⟩
  rw [hmul, hdet, h1]
  simp

end MatrixTheorems

/-! ## Theorems : triangular indices -/

theorem tri_two (j : Nat) : 2 * (j * (j + 1) / 2) = j * (j + 1) :=
  Nat.two_mul_div_two_of_even (Nat.even_mul_succ_self j)

theorem tri_lt (j l : Nat) (h : j < l) : j * (j + 1) / 2 + j < l * (l + 1) / 2 := by
  have h1 := tri_two j
  have h2 := tri_two l
  have h3 : (j + 1) * (j + 1 + 1) ≤ l * (l + 1) := Nat.mul_le_mul h (by omega)
  have h4 : (j + 1) * (j + 1 + 1) = j * (j + 1) + 2 * j + 2 := by ring
  omega

theorem mr_eq (w i j : Nat) (hij : i ≤ j) (h : j * (j + 1) < 2 ^ w) :
    mr w i j = j * (j + 1) / 2 + i := by
  have h2 := tri_two j
  unfold mr
  rcases Nat.eq_zero_or_pos j with h0 | hpos
  · subst h0
    have hi : i = 0 := by omega
    subst hi
    simp only [Nat.zero_mul, Nat.zero_mod, Nat.zero_shiftRight, Nat.zero_add, Nat.zero_div]
  · have h3 : j + 1 ≤ j * (j + 1) := Nat.le_mul_of_pos_left (j + 1) hpos
    have h4 : j * (j + 1) = j * j + j := by ring
    have h5 : j ≤ j * j := Nat.le_mul_of_pos_left j hpos
    rw [Nat.mod_eq_of_lt (by omega : j + 1 < 2 ^ w), Nat.mod_eq_of_lt h,
      Nat.shiftRight_eq_div_pow, Nat.pow_one]
    exact Nat.mod_eq_of_lt (by omega)

theorem tri_sorted_inj (a b c e : Nat) (hab : a ≤ b) (hce : c ≤ e)
    (h : b * (b + 1) / 2 + a = e * (e + 1) / 2 + c) : a = c ∧ b = e := by
  rcases Nat.lt_trichotomy b e with hlt | heq | hgt
  · have := tri_lt b e hlt
    omega
  · subst heq
    exact ⟨by omega, rfl⟩
  · have := tri_lt e b hgt
    omega

/-- C20, as the code has it: when none of `i*(i+1)`, `j*(j+1)`, `k*(k+1)`,
`l*(l+1)` overflows the `w`-bit `size_t`, `mp i j = mp k l` if and only if
`{i, j} = {k, l}` as unordered pairs; `mp i j = mp j i`; and for `i ≤ j < n`
the index `mr i j` is `j*(j+1)/2 + i`, less than `n*(n+1)/2`. -/
theorem mp_faithful (w i j k l : Nat) (hi : i * (i + 1) < 2 ^ w) (hj : j * (j + 1) < 2 ^ w)
    (hk : k * (k + 1) < 2 ^ w) (hl : l * (l + 1) < 2 ^ w) :
    (mp w i j = mp w k l ↔ (i = k ∧ j = l) ∨ (i = l ∧ j = k)) ∧
    mp w i j = mp w j i ∧
    ∀ n, i ≤ j → j < n →
      mr w i j = j * (j + 1) / 2 + i ∧ mr w i j < n * (n + 1) / 2 := by
  refine ⟨?_, ?_, ?_⟩
  · unfold mp
    by_cases hij : i ≤ j
    · by_cases hkl : k ≤ l
      · rw [if_pos hij, if_pos hkl, mr_eq w i j hij hj, mr_eq w k l hkl hl]
        constructor
        · intro h
          have := tri_sorted_inj i j k l hij hkl h
          omega
        · rintro (⟨rfl, rfl⟩ | ⟨rfl, rfl⟩)
          · rfl
          · have : i = j := by omega
            subst this
            rfl
      · have hlk : l ≤ k := by omega
        rw [if_pos hij, if_neg hkl, mr_eq w i j hij hj, mr_eq w l k hlk hk]
        constructor
        · intro h
          have := tri_sorted_inj i j l k hij hlk h
          omega
        · rintro (⟨rfl, rfl⟩ | ⟨rfl, rfl⟩)
          · omega
          · rfl
    · have hji : j ≤ i := by omega
      by_cases hkl : k ≤ l
      · rw [if_neg hij, if_pos hkl, mr_eq w j i hji hi, mr_eq w k l hkl hl]
        constructor
        · intro h
          have := tri_sorted_inj j i k l hji hkl h
          omega
        · rintro (⟨rfl, rfl⟩ | ⟨rfl, rfl⟩)
          · omega
          · rfl
      · have hlk : l ≤ k := by omega
        rw [if_neg hij, if_neg hkl, mr_eq w j i hji hi, mr_eq w l k hlk hk]
        constructor
        · intro h
          have := tri_sorted_inj j i l k hji hlk h
          omega
        · rintro (⟨rfl, rfl⟩ | ⟨rfl, rfl⟩)
          · rfl
          · omega
  · unfold mp
    by_cases hij : i ≤ j
    · by_cases hji : j ≤ i
      · have : i = j := by omega
        subst this
        rfl
      · rw [if_pos hij, if_neg hji]
    · rw [if_neg hij, if_pos (by omega : j ≤ i)]
  · intro n hij hjn
    rw [mr_eq w i j hij hj]
    refine ⟨rfl, ?_⟩
    have := tri_lt j n hjn
    omega

/-- Evaluation of C20 as amended on a 64-bit `size_t`: `mp 1 2 = mp 2 1 = 4`. -/
theorem mp_faithful_witness :
    1 * (1 + 1) < 2 ^ 64 ∧ 2 * (2 + 1) < 2 ^ 64 ∧
    mp 64 1 2 = 4 ∧ mp 64 2 1 = 4 ∧
    ((mp 64 1 2 = mp 64 2 1 ↔ (1 = 2 ∧ 2 = 1) ∨ (1 = 1 ∧ 2 = 2)) ∧
    mp 64 1 2 = mp 64 2 1 ∧
    ∀ n, 1 ≤ 2 → 2 < n →
      mr 64 1 2 = 2 * (2 + 1) / 2 + 1 ∧ mr 64 1 2 < n * (n + 1) / 2) :=
  ⟨by decide, by decide, by decide, by decide,
    mp_faithful 64 1 2 2 1 (by decide) (by decide) (by decide) (by decide)⟩

/-- C20 as stated fails on a 64-bit `size_t`: with `i = 2 ^ 32`, `j = 0`,
`k = 32768`, `l = 65535`, neither `j*(j+1)` nor `l*(l+1)` overflows, but
`mp i j` computes `mr 0 i`, where `i*(i+1)` wraps to `2 ^ 32`; both indices
are `2 ^ 31` although the pairs differ. -/
theorem mp_faithful_counterexample :
    4294967296 < 2 ^ 64 ∧ 0 * (0 + 1) < 2 ^ 64 ∧ 65535 * (65535 + 1) < 2 ^ 64 ∧
    mp 64 4294967296 0 = 2147483648 ∧ mp 64 32768 65535 = 2147483648 ∧
    ¬ ((mp 64 4294967296 0 = mp 64 32768 65535) ↔
      ((4294967296 = 32768 ∧ 0 = 65535) ∨ (4294967296 = 65535 ∧ 0 = 32768))) := by
  decide

/-! ## Evaluation of the conversions -/

/-- Evaluation of C15 over the reals, with the real `sin` and `cos`: the axis
`(1, 0, 0)` and the angle `π`. -/
theorem vec4_to_qtn4_unit_witness :
    (∀ x : ℝ, Real.sin x * Real.sin x + Real.cos x * Real.cos x = 1) ∧
    ((1 : ℝ) * 1 + 0 * 0 + 0 * 0 = 1) ∧
    (vec4_to_qtn4 (Lib.mk Real.sqrt Real.sin Real.cos (fun _ => false))
        { v0 := 1, v1 := 0, v2 := 0 } Real.pi =
      { q0 := Real.cos (Real.pi / 2), q1 := Real.sin (Real.pi / 2) * 1,
        q2 := Real.sin (Real.pi / 2) * 0, q3 := Real.sin (Real.pi / 2) * 0 } ∧
    norm_sqr (vec4_to_qtn4 (Lib.mk Real.sqrt Real.sin Real.cos (fun _ => false))
        { v0 := 1, v1 := 0, v2 := 0 } Real.pi) = 1) :=
  ⟨fun x => by rw [← sq, ← sq]; exact Real.sin_sq_add_cos_sq x, by norm_num,
    vec4_to_qtn4_unit (Lib.mk Real.sqrt Real.sin Real.cos (fun _ => false))
      { v0 := 1, v1 := 0, v2 := 0 } Real.pi
      (fun x => by rw [← sq, ← sq]; exact Real.sin_sq_add_cos_sq x) (by norm_num)⟩

/-- Evaluation of C16 over the reals, with the real `sqrt`, `sin`, `cos`: the
rotation vector `(3, 0, 4)`. -/
theorem normalize_vec3_to_qtn4_witness :
    (∀ x : ℝ, Real.sin x * Real.sin x + Real.cos x * Real.cos x = 1) ∧
    (∀ x : ℝ, 0 ≤ x → Real.sqrt x * Real.sqrt x = x) ∧
    ((3 : ℝ) ≠ 0 ∨ (0 : ℝ) ≠ 0 ∨ (4 : ℝ) ≠ 0) ∧
    (norm_sqr (vec3_to_qtn4 (Lib.mk Real.sqrt Real.sin Real.cos (fun _ => false))
        { v0 := 3, v1 := 0, v2 := 4 }) = 1 ∧
    vec3_to_qtn4 (Lib.mk Real.sqrt Real.sin Real.cos (fun _ => false))
        { v0 := 3, v1 := 0, v2 := 4 } ≠ { q0 := 0, q1 := 0, q2 := 0, q3 := 0 } ∧
    norm_sqr (normalize (Lib.mk Real.sqrt Real.sin Real.cos (fun _ => false))
      (vec3_to_qtn4 (Lib.mk Real.sqrt Real.sin Real.cos (fun _ => false))
        { v0 := 3, v1 := 0, v2 := 4 })) = 1 ∧
    |norm_sqr (normalize (Lib.mk Real.sqrt Real.sin Real.cos (fun _ => false))
      (vec3_to_qtn4 (Lib.mk Real.sqrt Real.sin Real.cos (fun _ => false))
        { v0 := 3, v1 := 0, v2 := 4 })) - 1| < 1 / 100000) :=
  ⟨fun x => by rw [← sq, ← sq]; exact Real.sin_sq_add_cos_sq x,
    fun x hx => Real.mul_self_sqrt hx, Or.inl (by norm_num),
    normalize_vec3_to_qtn4 (Lib.mk Real.sqrt Real.sin Real.cos (fun _ => false))
      { v0 := 3, v1 := 0, v2 := 4 }
      (fun x => by rw [← sq, ← sq]; exact Real.sin_sq_add_cos_sq x)
      (fun x hx => Real.mul_self_sqrt hx) (Or.inl (by norm_num))⟩

/-- Evaluation of C17 over the rationals with an exact zero test. -/
theorem vec3_to_qtn4_zero_witness :
    demoLib.zero { v0 := 0, v1 := 0, v2 := 0 } = true ∧
    vec3_to_qtn4 demoLib { v0 := 0, v1 := 0, v2 := 0 } =
      { q0 := 1, q1 := 0, q2 := 0, q3 := 0 } :=
  ⟨by simp [demoLib], vec3_to_qtn4_zero demoLib (by simp [demoLib])⟩

/-- Evaluation of C19 over the integers: the unit quaternion `(0, 1, 0, 0)`,
the half turn about the first axis. -/
theorem qtn4_to_mat3_rotation_witness :
    norm_sqr ({ q0 := 0, q1 := 1, q2 := 0, q3 := 0 } : qtn4 ℤ) = 1 ∧
    qtn4_to_mat3 ({ q0 := 0, q1 := 1, q2 := 0, q3 := 0 } : qtn4 ℤ) =
      { m0 := 1, m1 := 0, m2 := 0, m3 := 0, m4 := -1, m5 := 0, m6 := 0, m7 := 0, m8 := -1 } ∧
    ((qtn4_to_mat3 ({ q0 := 0, q1 := 1, q2 := 0, q3 := 0 } : qtn4 ℤ)).toMatrix *
        (qtn4_to_mat3 ({ q0 := 0, q1 := 1, q2 := 0, q3 := 0 } : qtn4 ℤ)).toMatrix.transpose = 1 ∧
      (qtn4_to_mat3 ({ q0 := 0, q1 := 1, q2 := 0, q3 := 0 } : qtn4 ℤ)).toMatrix.det = 1) :=
  ⟨by decide, by decide,
    (qtn4_to_mat3_rotation ({ q0 := 0, q1 := 1, q2 := 0, q3 := 0 } : qtn4 ℤ)).2.2 (by decide)⟩

end Idock
